import Mathlib

/-!
Verification development for the SBSView telemetry core.

The definitions below are a shallow embedding of the Rust sources:
  * `src/sbs_core/src/ty.rs`     — signal types and `parse_type_name`
  * `src/sbs_core/src/value.rs`  — typed values, `default_value`,
                                   `Into<f64>` and `SignalFrameValue`
  * `src/sbs_core/src/decode.rs` — `BinaryReader` and `Type::decode_bytes`
  * `src/sbs_uart/src/frame_decoder.rs` — the streaming frame codec
  * `src/sbs_uart/src/sbs_uart.rs`      — the client façade
  * `src/sbs_view/src/signals/window_buffer.rs` — sliding-window buffer

Modelling conventions: machine integers are `Nat` (with explicit
`% 2 ^ 32` where the Rust code relies on wrapping), Rust strings are
lists of UTF-8 bytes, `todo!()` / `unwrap` panics are the `none` /
`panic` constructor of the corresponding result type, and Rust `f64`
and `f32` payloads are modelled over `ℚ` where only the branch
structure (not rounding) matters for the claims at hand.
-/

namespace SBS

/-! ## Signal types (`sbs_core/src/ty.rs`) -/

inductive Ty where
  | Uint8
  | Uint16
  | Uint32
  | Int8
  | Int16
  | Int32
  | Float32
  | SFix (w : Nat) (e : Int)
  | UFix (w : Nat) (e : Int)
deriving DecidableEq, Repr

/-- Rust `&str` contents, modelled by their UTF-8 bytes.  All the string
literals the protocol compares against are ASCII, so the byte of each
character is its code point. -/
def strBytes (s : String) : List Nat := s.data.map Char.toNat

/-- The seven fixed type names of the `named` alternative of the regex in
`parse_type_name`, with the `Type` each maps to, in source order. -/
def namedTable : List (List Nat × Ty) :=
  [ (strBytes "uint8", .Uint8)
  , (strBytes "uint16", .Uint16)
  , (strBytes "uint32", .Uint32)
  , (strBytes "int8", .Int8)
  , (strBytes "int16", .Int16)
  , (strBytes "int32", .Int32)
  , (strBytes "float32", .Float32) ]

def isDigitByte (b : Nat) : Bool := 48 ≤ b && b ≤ 57

/-- Longest digit run at the front of the input (the greedy `[0-9]+`),
returned together with the rest. -/
def spanDigits (s : List Nat) : List Nat × List Nat :=
  (s.takeWhile isDigitByte, s.dropWhile isDigitByte)

/-- Result of the `fix` alternative of the regex: signed base?, width
digits, negative exponent?, exponent digits. -/
structure FixMatch where
  signed : Bool
  wDigits : List Nat
  eNeg : Bool
  eDigits : List Nat
deriving DecidableEq, Repr

/-- Matches `\(DIGITS,( )*-?DIGITS\)` followed by end of input — the part
of the regex's `fix` alternative after the `ufix`/`sfix` base word
(`(?<fix_wlen>[0-9]+),( )*(?<fix_exp>-?[0-9]+)\)$`). -/
def fixAfterBase (s : List Nat) : Option (List Nat × Bool × List Nat) :=
  match s with
  | 40 :: r0 =>
    let (wds, r1) := spanDigits r0
    if wds = [] then none else
    match r1 with
    | 44 :: r2 =>
      let r3 := r2.dropWhile (· = 32)
      let (eneg, r4) := match r3 with
        | 45 :: r4 => (true, r4)
        | _ => (false, r3)
      let (eds, r5) := spanDigits r4
      if eds = [] then none else
      match r5 with
      | [41] => some (wds, eneg, eds)
      | _ => none
    | _ => none
  | _ => none

/-- The `((?<fix_base>(ufix)|(sfix))\(... \))$` alternative attempted at one
position: it must run from here to the very end of the input. -/
def fixHere (s : List Nat) : Option FixMatch :=
  if (strBytes "ufix").isPrefixOf s then
    (fixAfterBase (s.drop 4)).map fun (w, n, e) => ⟨false, w, n, e⟩
  else if (strBytes "sfix").isPrefixOf s then
    (fixAfterBase (s.drop 4)).map fun (w, n, e) => ⟨true, w, n, e⟩
  else none

/-- The regex engine's scan for the `fix` alternative: the `^` anchor only
applies to the `named` alternative, so the `fix` alternative is tried at
every start position, leftmost first. -/
def searchFix : List Nat → Option FixMatch
  | [] => none
  | b :: t =>
    match fixHere (b :: t) with
    | some r => some r
    | none => searchFix t

/-- `u32::from_str` / `i32::from_str` digit accumulation. -/
def digitsVal (ds : List Nat) : Nat := ds.foldl (fun a b => a * 10 + (b - 48)) 0

/-- The numeric conversion inside the `fix_base` branch of
`parse_type_name`: `u32::from_str` on the width digits and
`i32::from_str` on the signed exponent, each failing (`.ok()?`) on
overflow. -/
def fixConvert (fm : FixMatch) : Option Ty :=
  let w := digitsVal fm.wDigits
  if w ≥ 2 ^ 32 then none
  else
    let n := digitsVal fm.eDigits
    let e? : Option Int :=
      if fm.eNeg then (if n ≤ 2 ^ 31 then some (-(n : Int)) else none)
      else (if n < 2 ^ 31 then some (n : Int) else none)
    match e? with
    | none => none
    | some e => if fm.signed then some (.SFix w e) else some (.UFix w e)

/-- `parse_type_name` of `sbs_core/src/ty.rs`.  The regex
`^(?<named>…)|((?<fix_base>…)\(…\))$` anchors `^` only to the `named`
alternative and `$` only to the `fix` alternative; `Regex::captures` uses
leftmost-first matching, so a `named` prefix wins, else the leftmost
position where the `fix` alternative reaches the end of the string. -/
def parse_type_name (s : List Nat) : Option Ty :=
  match namedTable.find? (fun p => p.1.isPrefixOf s) with
  | some p => some p.2
  | none =>
    match searchFix s with
    | some fm => fixConvert fm
    | none => none

/-! ## Typed values (`sbs_core/src/value.rs`) -/

inductive Value where
  | Uint8 (v : Nat)
  | Uint16 (v : Nat)
  | Uint32 (v : Nat)
  | Int8 (v : Int)
  | Int16 (v : Int)
  | Int32 (v : Int)
  | Float32 (v : ℚ)
  | SFix (w : Nat) (e : Int) (raw : Int)
  | UFix (w : Nat) (e : Int) (raw : Nat)
deriving DecidableEq, Repr

/-- `Type::default_value`. -/
def Ty.default_value : Ty → Value
  | .Uint8 => .Uint8 0
  | .Uint16 => .Uint16 0
  | .Uint32 => .Uint32 0
  | .Int8 => .Int8 0
  | .Int16 => .Int16 0
  | .Int32 => .Int32 0
  | .Float32 => .Float32 0
  | .SFix w e => .SFix w e 0
  | .UFix w e => .UFix w e 0

/-- The Rust expression `(2i32 << k) as f64`: the shifted value is
reduced into a two's-complement `i32`, silently discarding high bits —
Rust checks only the shift AMOUNT, so for `k < 32` this wrap is
identical in debug and release builds (in particular `2i32 << 30`
wraps to `-2^31`); the `k % 32` masking matters only for `k ≥ 32`,
where a debug build would panic instead. -/
def i32Shl2 (k : Nat) : Int :=
  let v : Nat := (2 <<< (k % 32)) % 2 ^ 32
  if v < 2 ^ 31 then (v : Int) else (v : Int) - 2 ^ 32

/-- `impl Into<f64> for Value` (`value.rs` lines 53–76).  The numeric
branches are modelled over `ℚ`; the `SFix` branch is `todo!()`, i.e. a
panic, modelled as `none`. -/
def into_f64 : Value → Option ℚ
  | .Uint8 v => some v
  | .Uint16 v => some v
  | .Uint32 v => some v
  | .Int8 v => some v
  | .Int16 v => some v
  | .Int32 v => some v
  | .Float32 v => some v
  | .SFix _ _ _ => none
  | .UFix _ e raw =>
    some (if e < 0 then (raw : ℚ) / (i32Shl2 (-e - 1).toNat : ℚ)
          else if e > 0 then (raw : ℚ) * (i32Shl2 (e - 1).toNat : ℚ)
          else (raw : ℚ))

/-! ## Binary signal decoder (`sbs_core/src/decode.rs`) -/

/-- `BinaryReader::read`: take `n` bytes off the front if available. -/
def readerRead (n : Nat) (bs : List Nat) : Option (List Nat × List Nat) :=
  if n ≤ bs.length then some (bs.take n, bs.drop n) else none

/-- Little-endian value of a byte list (`uNN::from_le_bytes`). -/
def leVal : List Nat → Nat
  | [] => 0
  | b :: r => b + 256 * leVal r

/-- Two's-complement reading of a `k`-bit little-endian unsigned value
(`iNN::from_le_bytes`). -/
def toSigned (k : Nat) (n : Nat) : Int :=
  if n < 2 ^ (k - 1) then (n : Int) else (n : Int) - 2 ^ k

/-- Result of one `Type::decode_bytes` call: `panic` is the `todo!()`
catch-all arm, `fail` is `None` (reader exhausted), `ok` carries the
value and the rest of the reader. -/
inductive DRes where
  | panic
  | fail
  | ok (v : Value) (rest : List Nat)
deriving DecidableEq, Repr

/-- The `reader.read(n).map(|data| Value::…)` pattern every implemented
arm of `decode_bytes` uses: `fail` when the reader is exhausted. -/
def readMap (n : Nat) (mk : List Nat → Value) (bs : List Nat) : DRes :=
  match readerRead n bs with
  | some (d, r) => .ok (mk d) r
  | none => .fail

/-- `Type::decode_bytes` (`decode.rs` lines 24–62).  Arms appear in source
order; `Float32`, all `SFix`, and `UFix` with `w > 64` fall through to
the `_ => todo!()` arm. -/
def Ty.decode_bytes : Ty → List Nat → DRes
  | .Uint8, bs => readMap 1 (fun d => .Uint8 (d.getD 0 0)) bs
  | .Uint16, bs => readMap 2 (fun d => .Uint16 (leVal d)) bs
  | .Uint32, bs => readMap 4 (fun d => .Uint32 (leVal d)) bs
  | .Int8, bs => readMap 1 (fun d => .Int8 (toSigned 8 (leVal d))) bs
  | .Int16, bs => readMap 2 (fun d => .Int16 (toSigned 16 (leVal d))) bs
  | .Int32, bs => readMap 4 (fun d => .Int32 (toSigned 32 (leVal d))) bs
  | .UFix w e, bs =>
    if w ≤ 8 then readMap 1 (fun d => .UFix w e (d.getD 0 0)) bs
    else if w ≤ 16 then readMap 2 (fun d => .UFix w e (leVal d)) bs
    else if w ≤ 32 then readMap 4 (fun d => .UFix w e (leVal d)) bs
    else if w ≤ 64 then readMap 8 (fun d => .UFix w e (leVal d)) bs
    else .panic
  | .Float32, _ => .panic
  | .SFix _ _, _ => .panic

/-! ## Descriptors and signal-frame values (`sbs_core/src/sbs.rs`,
`sbs_core/src/value.rs`) -/

structure SignalDescriptor where
  name : List Nat
  ty : Ty
deriving DecidableEq, Repr

structure SignalFrameDescriptor where
  id : Nat
  name : List Nat
  enabled : Bool
  signals : List SignalDescriptor
deriving DecidableEq, Repr

structure SignalFrameValue where
  descriptor : SignalFrameDescriptor
  timestamp : Nat
  data : List Value
deriving DecidableEq, Repr

/-- `SignalFrameValue::new`. -/
def SignalFrameValue.new (d : SignalFrameDescriptor) : SignalFrameValue :=
  ⟨d, 0, d.signals.map (fun s => s.ty.default_value)⟩

/-- The `for (i, signal) in …enumerate()` loop of
`SignalFrameValue::update_from_bytes`: writes `self.data[i]` for each
decoded signal, stops with `false` on the first `None`; `none` is a
panic bubbling up from `decode_bytes`. -/
def updateLoop : List SignalDescriptor → List Value → Nat → List Nat →
    Option (List Value × Bool)
  | [], data, _, _ => some (data, true)
  | sg :: rest, data, i, bs =>
    match sg.ty.decode_bytes bs with
    | .panic => none
    | .fail => some (data, false)
    | .ok v bs' => updateLoop rest (data.set i v) (i + 1) bs'

/-- `SignalFrameValue::update_from_bytes` (`value.rs` lines 97–110).
`self.timestamp` is assigned before any signal is decoded, so the
returned value carries the new timestamp even when the decode fails. -/
def SignalFrameValue.update_from_bytes (sfv : SignalFrameValue) (timestamp : Nat)
    (bytes : List Nat) : Option (SignalFrameValue × Bool) :=
  (updateLoop sfv.descriptor.signals sfv.data 0 bytes).map
    fun p => ({ sfv with timestamp := timestamp, data := p.1 }, p.2)

/-! ## Streaming frame codec (`sbs_uart/src/frame_decoder.rs`) -/

structure FrameInfo where
  id : Nat
  name : List Nat
deriving DecidableEq, Repr

structure SignalInfo where
  name : List Nat
  ty : Ty
deriving DecidableEq, Repr

structure FrameDetails where
  enabled : Bool
  signals : List SignalInfo
deriving DecidableEq, Repr

inductive DecodedFrame where
  | ListFrames (frames : List FrameInfo)
  | GetFrameInfo (details : FrameDetails)
  | EnableFrame
  | DisableFrame
deriving DecidableEq, Repr

structure RawSignalFrame where
  frame_id : Nat
  timestamp : Nat
  data : List Nat
deriving DecidableEq, Repr

instance : Inhabited RawSignalFrame := ⟨⟨0, 0, []⟩⟩

inductive DecodeResult where
  | None
  | CmdFrame (f : DecodedFrame)
  | SignalFrame (f : RawSignalFrame)
  | Err (msg : String)
deriving DecidableEq, Repr

inductive DecodeListFramesState where
  | NumFrames
  | FrameId
  | FrameNameLen
  | FrameName (len : Nat)
deriving DecidableEq, Repr

structure PartialListFrames where
  num_frames : Nat
  frame_id : Nat
  frames : List FrameInfo
deriving DecidableEq, Repr

instance : Inhabited PartialListFrames := ⟨⟨0, 0, []⟩⟩

inductive DecodeGetFrameInfoState where
  | IsEnabled
  | NumSignals
  | SignalNameLen
  | SignalName (len : Nat)
  | SignalTypeLen
  | SignalType (len : Nat)
deriving DecidableEq, Repr

inductive DecodeDataFrameState where
  | FrameId
  | Timestamp
  | DataLen
  | Data (len : Nat)
deriving DecidableEq, Repr

structure PartialGetFrameInfo where
  enabled : Bool
  num_signals : Nat
  signal_name : List Nat
  signals : List SignalInfo
deriving DecidableEq, Repr

instance : Inhabited PartialGetFrameInfo := ⟨⟨false, 0, [], []⟩⟩

inductive PayloadType where
  | ListFrames
  | GetFrameInfo
  | EnableFrame
  | DisableFrame
  | DataFrame
  | NullFrame
deriving DecidableEq, Repr

inductive DecoderState where
  | StartWord
  | FrameLength
  | PayloadStartChar
  | DataFrame (s : DecodeDataFrameState)
  | ListFrames (s : DecodeListFramesState)
  | GetFrameInfo (s : DecodeGetFrameInfoState)
  | PayloadEndChar (pt : PayloadType) (ec : Nat)
  | Crc (pt : PayloadType)
  | EndChar (pt : PayloadType)
deriving DecidableEq, Repr

structure Decoder where
  state : DecoderState
  buffer : List Nat
  offset : Nat
  frame_len : Nat
  frame_start_offset : Nat
  data_frame : RawSignalFrame
  list_frames : PartialListFrames
  get_frame_info : PartialGetFrameInfo
deriving DecidableEq, Repr

def FRAME_START : Nat := 0xBBBBBBBB
def FRAME_END : Nat := 0xEE

/-- `Decoder::new`. -/
def Decoder.new : Decoder :=
  ⟨.StartWord, [], 0, 0, 0, default, default, default⟩

/-- `Decoder::add_data` (`make_contiguous` has no observable effect on a
list model). -/
def Decoder.add_data (d : Decoder) (data : List Nat) : Decoder :=
  { d with buffer := d.buffer ++ data }

/-- Bytes of the buffer that the cursor has not passed yet. -/
def Decoder.unread (d : Decoder) : Nat := d.buffer.length - d.offset

/-- The `n` bytes at the cursor. -/
def Decoder.peekBytes (d : Decoder) (n : Nat) : List Nat :=
  (d.buffer.drop d.offset).take n

/-- `Decoder::clear_read`: drop the consumed prefix, reset the cursor. -/
def Decoder.clear_read (d : Decoder) : Decoder :=
  { d with buffer := d.buffer.drop d.offset, offset := 0 }

/-- Validity of a byte list under `core::str::from_utf8` (the Unicode
UTF-8 well-formedness rules, surrogates and overlong forms rejected). -/
def validUtf8 : List Nat → Bool
  | [] => true
  | b :: r =>
    if b < 0x80 then validUtf8 r
    else if b < 0xC2 then false
    else if b < 0xE0 then
      match r with
      | c1 :: r' => 0x80 ≤ c1 && c1 < 0xC0 && validUtf8 r'
      | [] => false
    else if b < 0xF0 then
      match r with
      | c1 :: c2 :: r' =>
        (if b = 0xE0 then 0xA0 ≤ c1 && c1 < 0xC0
         else if b = 0xED then 0x80 ≤ c1 && c1 < 0xA0
         else 0x80 ≤ c1 && c1 < 0xC0) &&
        (0x80 ≤ c2 && c2 < 0xC0) && validUtf8 r'
      | _ => false
    else if b < 0xF5 then
      match r with
      | c1 :: c2 :: c3 :: r' =>
        (if b = 0xF0 then 0x90 ≤ c1 && c1 < 0xC0
         else if b = 0xF4 then 0x80 ≤ c1 && c1 < 0x90
         else 0x80 ≤ c1 && c1 < 0xC0) &&
        (0x80 ≤ c2 && c2 < 0xC0) && (0x80 ≤ c3 && c3 < 0xC0) && validUtf8 r'
      | _ => false
    else false

/-- CRC-16/ARC: reflected polynomial `0xA001`, `init = 0`, no final xor
(the `crc::CRC_16_ARC` algorithm used by the codec). -/
def crc16Bit (c : Nat) : Nat :=
  if c % 2 = 1 then (c / 2) ^^^ 0xA001 else c / 2

def crc16Step (crc b : Nat) : Nat := crc16Bit^[8] (crc ^^^ b)

/-- CRC-16/ARC over a byte list. -/
def crc16 (bytes : List Nat) : Nat := bytes.foldl crc16Step 0

/-- Outcome of one pass of the `loop` body in `Decoder::decode`:
`panic` for an `unwrap`/slice panic, `stall` when the current step had
too few bytes (`new_state == None`, the loop breaks), `next` when the
state advanced (the loop returns if the result is not `None`). -/
inductive Step where
  | panic
  | stall (d : Decoder)
  | next (d : Decoder) (r : DecodeResult)
deriving Repr

/-- One iteration of the `loop` in `Decoder::decode`
(`frame_decoder.rs` lines 163–296), state by state.  The `'('` arm of
the `PayloadStartChar` match is written after the catch-all `_` arm in
the source and is therefore unreachable: `'('` (byte 40) takes the
catch-all resynchronisation arm here just as Rust's leftmost-arm
semantics dictate. -/
def decodeStep (d : Decoder) : Step :=
  match d.state with
  | .StartWord =>
    if d.unread < 4 then .stall d
    else
      let sc := leVal (d.peekBytes 4)
      if sc = FRAME_START then
        .next { d with offset := d.offset + 4, state := .FrameLength } .None
      else
        .next (Decoder.clear_read { d with offset := d.offset + 1 }) .None
  | .FrameLength =>
    if d.unread < 4 then .stall d
    else
      let fl := leVal (d.peekBytes 4)
      .next { d with offset := d.offset + 4, frame_len := fl,
                     frame_start_offset := d.offset + 4,
                     state := .PayloadStartChar } .None
  | .PayloadStartChar =>
    if d.unread < 1 then .stall d
    else
      let c := leVal (d.peekBytes 1)
      let d1 := { d with offset := d.offset + 1 }
      if c = 115 then
        .next { d1 with data_frame := default, state := .DataFrame .FrameId } .None
      else if c = 108 then
        .next { d1 with list_frames := default, state := .ListFrames .NumFrames } .None
      else if c = 105 then
        .next { d1 with get_frame_info := default,
                        state := .GetFrameInfo .IsEnabled } .None
      else if c = 101 then
        .next { d1 with state := .PayloadEndChar .EnableFrame 69 } .None
      else if c = 100 then
        .next { d1 with state := .PayloadEndChar .DisableFrame 68 } .None
      else
        .next (Decoder.clear_read { d1 with state := .StartWord }) .None
  | .DataFrame s =>
    match s with
    | .FrameId =>
      if d.unread < 4 then .stall d
      else
        let fid := leVal (d.peekBytes 4)
        .next { d with offset := d.offset + 4,
                       data_frame := { d.data_frame with frame_id := fid },
                       state := .DataFrame .Timestamp } .None
    | .Timestamp =>
      if d.unread < 4 then .stall d
      else
        let ts := leVal (d.peekBytes 4)
        .next { d with offset := d.offset + 4,
                       data_frame := { d.data_frame with timestamp := ts },
                       state := .DataFrame .DataLen } .None
    | .DataLen =>
      if d.unread < 4 then .stall d
      else
        let dl := leVal (d.peekBytes 4)
        .next { d with offset := d.offset + 4,
                       state := if dl > 0 then .DataFrame (.Data dl)
                                else .PayloadEndChar .DataFrame 83 } .None
    | .Data len =>
      if d.unread < len then .stall d
      else
        let bs := d.peekBytes len
        .next { d with offset := d.offset + len,
                       data_frame := { d.data_frame with data := bs },
                       state := .PayloadEndChar .DataFrame 83 } .None
  | .ListFrames s =>
    match s with
    | .NumFrames =>
      if d.unread < 4 then .stall d
      else
        let nf := leVal (d.peekBytes 4)
        .next { d with offset := d.offset + 4,
                       list_frames := { d.list_frames with num_frames := nf },
                       state := if nf > 0 then .ListFrames .FrameId
                                else .PayloadEndChar .ListFrames 76 } .None
    | .FrameId =>
      if d.unread < 4 then .stall d
      else
        let fid := leVal (d.peekBytes 4)
        .next { d with offset := d.offset + 4,
                       list_frames := { d.list_frames with frame_id := fid },
                       state := .ListFrames .FrameNameLen } .None
    | .FrameNameLen =>
      if d.unread < 1 then .stall d
      else
        let fl := leVal (d.peekBytes 1)
        .next { d with offset := d.offset + 1,
                       state := .ListFrames (.FrameName fl) } .None
    | .FrameName len =>
      if d.unread < len then .stall d
      else
        let bs := d.peekBytes len
        if validUtf8 bs then
          let frames' := d.list_frames.frames ++
            [⟨d.list_frames.frame_id, bs⟩]
          .next { d with offset := d.offset + len,
                         list_frames := { d.list_frames with frames := frames' },
                         state := if frames'.length = d.list_frames.num_frames
                                  then .PayloadEndChar .ListFrames 76
                                  else .ListFrames .FrameId } .None
        else .panic
  | .GetFrameInfo s =>
    match s with
    | .IsEnabled =>
      if d.unread < 1 then .stall d
      else
        let ie := leVal (d.peekBytes 1)
        let d1 := { d with offset := d.offset + 1 }
        if ie = 0 then
          .next { d1 with get_frame_info := { d.get_frame_info with enabled := false },
                          state := .GetFrameInfo .NumSignals } .None
        else if ie = 1 then
          .next { d1 with get_frame_info := { d.get_frame_info with enabled := true },
                          state := .GetFrameInfo .NumSignals } .None
        else
          .next (Decoder.clear_read { d1 with state := .StartWord })
            (.Err ("Invalid frame enabled value " ++ toString ie))
    | .NumSignals =>
      if d.unread < 4 then .stall d
      else
        let ns := leVal (d.peekBytes 4)
        .next { d with offset := d.offset + 4,
                       get_frame_info := { d.get_frame_info with num_signals := ns },
                       state := if ns > 0 then .GetFrameInfo .SignalNameLen
                                else .PayloadEndChar .GetFrameInfo 73 } .None
    | .SignalNameLen =>
      if d.unread < 1 then .stall d
      else
        let snl := leVal (d.peekBytes 1)
        .next { d with offset := d.offset + 1,
                       state := .GetFrameInfo (.SignalName snl) } .None
    | .SignalName len =>
      if d.unread < len then .stall d
      else
        let bs := d.peekBytes len
        if validUtf8 bs then
          .next { d with offset := d.offset + len,
                         get_frame_info := { d.get_frame_info with signal_name := bs },
                         state := .GetFrameInfo .SignalTypeLen } .None
        else .panic
    | .SignalTypeLen =>
      if d.unread < 1 then .stall d
      else
        let stl := leVal (d.peekBytes 1)
        .next { d with offset := d.offset + 1,
                       state := .GetFrameInfo (.SignalType stl) } .None
    | .SignalType len =>
      if d.unread < len then .stall d
      else
        let bs := d.peekBytes len
        if validUtf8 bs then
          match parse_type_name bs with
          | none => .stall { d with offset := d.offset + len }
          | some ty =>
            let signals' := d.get_frame_info.signals ++
              [⟨d.get_frame_info.signal_name, ty⟩]
            .next { d with offset := d.offset + len,
                           get_frame_info := { d.get_frame_info with signals := signals' },
                           state := if signals'.length = d.get_frame_info.num_signals
                                    then .PayloadEndChar .GetFrameInfo 73
                                    else .GetFrameInfo .SignalNameLen } .None
        else .panic
  | .PayloadEndChar pt ec =>
    if d.unread < 1 then .stall d
    else
      let ec2 := leVal (d.peekBytes 1)
      let d1 := { d with offset := d.offset + 1 }
      if ec = ec2 then
        .next { d1 with state := .Crc pt } .None
      else
        .next (Decoder.clear_read { d1 with state := .StartWord })
          (.Err ("Invalid payload end char " ++ toString ec2))
  | .Crc pt =>
    if d.unread < 2 then .stall d
    else
      let crc := leVal (d.peekBytes 2)
      let d1 := { d with offset := d.offset + 2 }
      if d.offset < 5 then .panic
      else
        let crc_calc := crc16 ((d.buffer.take d.offset).drop 5)
        if crc = crc_calc then
          .next { d1 with state := .EndChar pt } .None
        else
          .next (Decoder.clear_read { d1 with state := .StartWord })
            (.Err "Invalid frame CRC")
  | .EndChar pt =>
    if d.unread < 1 then .stall d
    else
      let ec := leVal (d.peekBytes 1)
      let d1 := { d with offset := d.offset + 1 }
      if ec = FRAME_END then
        let r : DecodeResult := match pt with
          | .ListFrames => .CmdFrame (.ListFrames d.list_frames.frames)
          | .GetFrameInfo => .CmdFrame (.GetFrameInfo
              ⟨d.get_frame_info.enabled, d.get_frame_info.signals⟩)
          | .EnableFrame => .CmdFrame .EnableFrame
          | .DisableFrame => .CmdFrame .DisableFrame
          | .DataFrame => .SignalFrame d.data_frame
          | .NullFrame => .None
        .next (Decoder.clear_read { d1 with state := .StartWord }) r
      else
        .next (Decoder.clear_read { d1 with state := .StartWord })
          (.Err ("Invalid frame end character " ++ toString ec))

/-- The `loop` of `Decoder::decode`, driven by fuel (each continuing
iteration strictly decreases `2 * unread + rank`, so the fuel chosen in
`Decoder.decode` is never exhausted on reachable inputs).  `none` is a
panic; a `stall` returns the `None` result accumulated so far; a `next`
with a non-`None` result returns it. -/
def decodeLoop : Nat → Decoder → Option (Decoder × DecodeResult)
  | 0, d => some (d, .None)
  | fuel + 1, d =>
    match decodeStep d with
    | .panic => none
    | .stall d' => some (d', .None)
    | .next d' .None => decodeLoop fuel d'
    | .next d' r => some (d', r)

/-- `Decoder::decode`. -/
def Decoder.decode (d : Decoder) : Option (Decoder × DecodeResult) :=
  decodeLoop (2 * d.buffer.length + 2) d

/-! ## Client façade (`sbs_uart/src/sbs_uart.rs`)

`HashMap<FrameId, FrameState>` is modelled as an association list with
unique keys (`insert` replaces an existing binding).  The serial worker
is out of process; its `list_frames` / `get_frame_info` responses enter
the model as explicit arguments. -/

def assocLookup {α : Type} (m : List (Nat × α)) (k : Nat) : Option α :=
  (m.find? (fun p => p.1 = k)).map (·.2)

def assocInsert {α : Type} (m : List (Nat × α)) (k : Nat) (v : α) : List (Nat × α) :=
  if (m.find? (fun p => p.1 = k)).isSome then
    m.map (fun p => if p.1 = k then (k, v) else p)
  else m ++ [(k, v)]

structure FrameState where
  descriptor : SignalFrameDescriptor
  latest_value : SignalFrameValue
deriving DecidableEq, Repr

/-- `SbsUart::ensure_frame_descriptors_loaded` (`sbs_uart.rs` lines
107–133): unconditionally issues `list_frames`, then `get_frame_info`
per listed frame, rebuilds the whole map and installs it over whatever
was cached.  `frames` is the `list_frames` response and `infos` the
`get_frame_info` responses keyed by frame id; a missing info models a
failed request, which aborts the pass (`?`). -/
def ensure_frame_descriptors_loaded (frames : List FrameInfo)
    (infos : List (Nat × FrameDetails)) : Option (List (Nat × FrameState)) :=
  frames.foldlM
    (fun acc f =>
      match assocLookup infos f.id with
      | none => none
      | some det =>
        let descriptor : SignalFrameDescriptor :=
          ⟨f.id, f.name, det.enabled,
           det.signals.map (fun s => ⟨s.name, s.ty⟩)⟩
        some (assocInsert acc f.id
          ⟨descriptor, SignalFrameValue.new descriptor⟩))
    []

/-- `SbsUart::get_frames` (`sbs_uart.rs` lines 30–39): always runs the
discovery pass, installs the rebuilt cache, and returns its descriptors
sorted by frame id ascending (`sort_by` is a stable sort, modelled by
`insertionSort`).  Returns the new cache contents and the reply. -/
def get_frames (frames : List FrameInfo) (infos : List (Nat × FrameDetails))
    (_cache : Option (List (Nat × FrameState))) :
    Option (Option (List (Nat × FrameState)) × List SignalFrameDescriptor) :=
  match ensure_frame_descriptors_loaded frames infos with
  | none => none
  | some m =>
    some (some m,
      List.insertionSort (fun a b => a.id ≤ b.id) (m.map (fun p => p.2.descriptor)))

/-- The body of the `frame_reader_thread` dispatch loop (`sbs_uart.rs`
lines 85–98) for one received raw frame: look the frame id up in the
cache, run `update_from_bytes` (its `bool` result is ignored), then
invoke every registered callback.  `numCallbacks` stands for the
callback registry; the second component of the result is how many
callback invocations fired.  `none` is a panic escaping from
`update_from_bytes`. -/
def processRawFrame (descs : Option (List (Nat × FrameState))) (numCallbacks : Nat)
    (frame : RawSignalFrame) :
    Option (Option (List (Nat × FrameState)) × Nat) :=
  match descs with
  | none => some (none, 0)
  | some m =>
    match assocLookup m frame.frame_id with
    | none => some (some m, 0)
    | some fs =>
      (fs.latest_value.update_from_bytes frame.timestamp frame.data).map
        fun p =>
          (some (assocInsert m frame.frame_id { fs with latest_value := p.1 }),
           numCallbacks)

/-! ## Sliding-window buffer (`sbs_view/src/signals/window_buffer.rs`)

`SignalId = (FrameId, String)`; the per-signal deques live in an
association map keyed by it.  `u32` timestamp subtraction wraps
(release-build semantics), modelled by `(t + 2^32 - ts) % 2^32`. -/

abbrev WSignalId := Nat × List Nat

def wbLookup (m : List (WSignalId × List (Nat × Value))) (k : WSignalId) :
    Option (List (Nat × Value)) :=
  (m.find? (fun p => p.1 = k)).map (·.2)

inductive WCmd where
  | SetWindow (seconds : ℚ)
  | AddSignal (sid : WSignalId)
  | RemoveSignal (sid : WSignalId)
  | ProcessFrame (frame_id : Nat) (value : SignalFrameValue)
  | TakeSnapshot
  | Quit

structure WState where
  window : Nat
  buf : List (WSignalId × List (Nat × Value))

/-- The worker-local state at thread start: `window = 10_000`, empty map. -/
def WState.init : WState := ⟨10000, []⟩

/-- The wrapping `u32` subtraction `value.timestamp - ts` (for
`t, ts < 2^32`). -/
def wrapSub (t ts : Nat) : Nat := (t + 2 ^ 32 - ts) % 2 ^ 32

/-- The `while let Some((ts, _)) = sig_buf.front()` trim loop: pop from
the front while `(value.timestamp - ts) > window`, stop at the first
front entry in range. -/
def trimFront (t window : Nat) : List (Nat × Value) → List (Nat × Value)
  | [] => []
  | e :: rest => if wrapSub t e.1 > window then trimFront t window rest else e :: rest

/-- Append `(timestamp, value)` then trim. -/
def pushTrim (t window : Nat) (v : Value) (dq : List (Nat × Value)) :
    List (Nat × Value) :=
  trimFront t window (dq ++ [(t, v)])

/-- The `for (i, descriptor) in value.descriptor.signals.iter().enumerate()`
loop of the `ProcessFrame` arm: each matching tracked signal gets
`(value.timestamp, value.data[i])` appended and its deque trimmed. -/
def processSignals (frame_id : Nat) (v : SignalFrameValue) (window : Nat)
    (buf : List (WSignalId × List (Nat × Value))) (i : Nat) :
    List SignalDescriptor → List (WSignalId × List (Nat × Value))
  | [] => buf
  | sg :: rest =>
    let sid : WSignalId := (frame_id, sg.name)
    let buf' :=
      if (wbLookup buf sid).isSome then
        buf.map (fun p =>
          if p.1 = sid then (p.1, pushTrim v.timestamp window (v.data.getD i (.Uint8 0)) p.2)
          else p)
      else buf
    processSignals frame_id v window buf' (i + 1) rest

/-- One command of the window-buffer worker loop (`window_buffer.rs`
lines 48–85).  `SetWindow` truncates `seconds * 1000.0` to `u32`
(saturating as Rust's `as` cast does); `TakeSnapshot` clones the map
(no state change); `Quit` breaks the loop. -/
def WState.step (st : WState) : WCmd → WState
  | .SetWindow s =>
    let x := s * 1000
    { st with window := if x < 0 then 0 else min (2 ^ 32 - 1) x.floor.toNat }
  | .AddSignal sid =>
    if (wbLookup st.buf sid).isSome then st else { st with buf := st.buf ++ [(sid, [])] }
  | .RemoveSignal sid =>
    if (wbLookup st.buf sid).isSome then
      { st with buf := st.buf.filter (fun p => p.1 ≠ sid) }
    else st
  | .ProcessFrame fid v =>
    { st with buf := processSignals fid v st.window st.buf 0 v.descriptor.signals }
  | .TakeSnapshot => st
  | .Quit => st

/-- The worker loop over a finite command sequence. -/
def WState.run (st : WState) (cmds : List WCmd) : WState :=
  cmds.foldl WState.step st

/-! ## Claim C9 — unimplemented signed fixed-point branches panic -/

/-- C9: the signed fixed-point branch of the public value operations is
unimplemented and panics: `Into<f64>` hits `todo!()` on every
`Value::SFix`, and `Type::decode_bytes` falls through to the
`_ => todo!()` arm for every `SFix(w, e)` type and for `UFix` with
`w > 64`, instead of returning `None`. -/
theorem sfix_decode_and_projection_panic :
    (∀ w e raw, into_f64 (Value.SFix w e raw) = none) ∧
    (∀ w e bs, Ty.decode_bytes (Ty.SFix w e) bs = DRes.panic) ∧
    (∀ w e bs, 64 < w → Ty.decode_bytes (Ty.UFix w e) bs = DRes.panic) := by
  refine ⟨fun _ _ _ => rfl, fun _ _ _ => rfl, fun w e bs h => ?_⟩
  have h8 : ¬ w ≤ 8 := by omega
  have h16 : ¬ w ≤ 16 := by omega
  have h32 : ¬ w ≤ 32 := by omega
  have h64 : ¬ w ≤ 64 := by omega
  simp [Ty.decode_bytes, h8, h16, h32, h64]

/-- Witness for C9 at concrete inputs. -/
theorem sfix_decode_and_projection_panic_witness :
    into_f64 (Value.SFix 16 (-2) 5) = none ∧
    Ty.decode_bytes (Ty.SFix 16 (-2)) [1, 2] = DRes.panic ∧
    Ty.decode_bytes (Ty.UFix 65 0) [1, 2, 3, 4, 5, 6, 7, 8, 9] = DRes.panic :=
  ⟨sfix_decode_and_projection_panic.1 16 (-2) 5,
   sfix_decode_and_projection_panic.2.1 16 (-2) [1, 2],
   sfix_decode_and_projection_panic.2.2 65 0 [1, 2, 3, 4, 5, 6, 7, 8, 9]
     (by decide)⟩

/-! ## Claim C5 — `parse_type_name` is not a complete-string match -/

/-- Modelled from the spec (§4.1): the textual type-name grammar matched
as a COMPLETE string — one of the seven named types exactly, or the
`FIX = ("ufix"|"sfix") "(" DIGITS "," SPACE* SIGNED_DIGITS ")"`
production covering the whole string (width and exponent unbounded, as
the grammar itself puts no range on `DIGITS`). -/
def specTypeNameFullMatch (s : List Nat) : Option Ty :=
  match namedTable.find? (fun p => p.1 = s) with
  | some p => some p.2
  | none =>
    match fixHere s with
    | some fm =>
      let w := digitsVal fm.wDigits
      let e : Int := if fm.eNeg then -(digitsVal fm.eDigits : Int) else digitsVal fm.eDigits
      some (if fm.signed then .SFix w e else .UFix w e)
    | none => none

/-- Counterexample to C5: `"uint8x"` does not match the type-name
grammar as a complete string, yet `parse_type_name` accepts it (the
`^` anchor binds only to the `named` alternative of the regex, so a
named-type prefix suffices). -/
theorem parse_type_name_accepts_prefix_junk :
    specTypeNameFullMatch (strBytes "uint8x") = none ∧
    parse_type_name (strBytes "uint8x") = some Ty.Uint8 := by
  constructor <;> rfl

/-- No name in `namedTable` is a strict prefix of another. -/
theorem namedTable_prefix_free :
    ∀ p ∈ namedTable, ∀ q ∈ namedTable, p.1.isPrefixOf q.1 → p = q := by
  decide

/-- At most one named alternative matches at the start of a string. -/
theorem named_prefix_unique {s : List Nat} {p q : List Nat × Ty}
    (hp : p ∈ namedTable) (hq : q ∈ namedTable)
    (hps : p.1 <+: s) (hqs : q.1 <+: s) : p = q := by
  rcases List.prefix_or_prefix_of_prefix hps hqs with h | h
  · exact namedTable_prefix_free p hp q hq (List.isPrefixOf_iff_prefix.mpr h)
  · exact (namedTable_prefix_free q hq p hp (List.isPrefixOf_iff_prefix.mpr h)).symm

/-- `searchFix` finds exactly the leftmost start position from which the
`fix` alternative matches through to the end of the input. -/
theorem searchFix_eq_some_iff (s : List Nat) (fm : FixMatch) :
    searchFix s = some fm ↔
      ∃ i, fixHere (s.drop i) = some fm ∧ ∀ j < i, fixHere (s.drop j) = none := by
  induction s with
  | nil =>
    simp only [searchFix]
    constructor
    · intro h; cases h
    · rintro ⟨i, hi, -⟩
      simp [List.drop_nil] at hi
      cases hi
  | cons b t ih =>
    simp only [searchFix]
    cases hfh : fixHere (b :: t) with
    | some r =>
      constructor
      · rintro ⟨⟩
        exact ⟨0, by simpa using hfh, by omega⟩
      · rintro ⟨i, hi, hmin⟩
        cases i with
        | zero => simp only [List.drop_zero] at hi; rw [hfh] at hi; cases hi; rfl
        | succ i' =>
          have h0 := hmin 0 (Nat.succ_pos i')
          simp only [List.drop_zero] at h0
          rw [h0] at hfh; cases hfh
    | none =>
      rw [ih]
      constructor
      · rintro ⟨i, hi, hmin⟩
        refine ⟨i + 1, by simpa using hi, fun j hj => ?_⟩
        cases j with
        | zero => simpa using hfh
        | succ j' => simpa using hmin j' (by omega)
      · rintro ⟨i, hi, hmin⟩
        cases i with
        | zero => simp only [List.drop_zero] at hi; rw [hfh] at hi; cases hi
        | succ i' =>
          exact ⟨i', by simpa using hi, fun j hj => by simpa using hmin (j + 1) (by omega)⟩

/-- C5 amended: `parse_type_name` accepts exactly the strings that START
with one of the seven named type names (result: that named type, the
rest of the string ignored), or — failing that — whose leftmost
`("ufix"|"sfix") "(" DIGITS "," SPACE* SIGNED_DIGITS ")"` match extends
to the END of the string, provided the leftmost match's width fits in
`u32` and its exponent in `i32` (`fixConvert`).  The `^` and `$` anchors
each bind to a single alternative of the regex, so a named-type prefix
or a fix suffix suffices; a complete-string match is not required. -/
theorem parse_type_name_characterisation (s : List Nat) (t : Ty) :
    parse_type_name s = some t ↔
      (∃ p ∈ namedTable, p.1 <+: s ∧ t = p.2) ∨
      ((∀ p ∈ namedTable, ¬ p.1 <+: s) ∧
       ∃ i fm, fixHere (s.drop i) = some fm ∧
         (∀ j < i, fixHere (s.drop j) = none) ∧ fixConvert fm = some t) := by
  unfold parse_type_name
  cases hf : namedTable.find? (fun p => p.1.isPrefixOf s) with
  | some p =>
    have hpmem := List.mem_of_find?_eq_some hf
    have hppre : p.1 <+: s :=
      List.isPrefixOf_iff_prefix.mp (by simpa using List.find?_some hf)
    constructor
    · rintro ⟨⟩
      exact Or.inl ⟨p, hpmem, hppre, rfl⟩
    · rintro (⟨q, hq, hqs, rfl⟩ | ⟨hnone, -⟩)
      · cases named_prefix_unique hpmem hq hppre hqs; rfl
      · exact absurd hppre (hnone p hpmem)
  | none =>
    have hno : ∀ p ∈ namedTable, ¬ p.1 <+: s := by
      intro p hp hpre
      have := List.find?_eq_none.mp hf p hp
      simp [List.isPrefixOf_iff_prefix] at this
      exact this hpre
    cases hsf : searchFix s with
    | some fm =>
      rw [searchFix_eq_some_iff] at hsf
      obtain ⟨i, hi, hmin⟩ := hsf
      constructor
      · intro h
        exact Or.inr ⟨hno, i, fm, hi, hmin, h⟩
      · rintro (⟨q, hq, hqs, rfl⟩ | ⟨-, i', fm', hi', hmin', hconv⟩)
        · exact absurd hqs (hno q hq)
        · have : i = i' := by
            by_contra hne
            rcases Nat.lt_or_ge i i' with h | h
            · rw [hmin' i h] at hi; cases hi
            · rcases Nat.lt_or_ge i' i with h2 | h2
              · rw [hmin i' h2] at hi'; cases hi'
              · omega
          subst this; rw [hi] at hi'; cases hi'; exact hconv
    | none =>
      constructor
      · intro h; cases h
      · rintro (⟨q, hq, hqs, rfl⟩ | ⟨-, i, fm, hi, hmin, hconv⟩)
        · exact absurd hqs (hno q hq)
        · have : searchFix s = some fm := (searchFix_eq_some_iff s fm).mpr ⟨i, hi, hmin⟩
          rw [this] at hsf; cases hsf

/-- Witness that C5's amended characterisation is inhabited: a fix match
that is only a suffix is accepted through the right-hand side. -/
theorem parse_type_name_characterisation_witness :
    parse_type_name (strBytes "xxufix(12,-3)") = some (Ty.UFix 12 (-3)) :=
  (parse_type_name_characterisation (strBytes "xxufix(12,-3)") (Ty.UFix 12 (-3))).mpr
    (Or.inr ⟨by decide, 2, ⟨false, [49, 50], true, [51]⟩, by decide, by decide, by decide⟩)

/-! ## Claim C1 — typed signal-frame decode and frame dispatch -/

/-- Container width in bytes read by `decode_bytes` for a type the
decoder implements. -/
def tyWidth : Ty → Nat
  | .Uint8 | .Int8 => 1
  | .Uint16 | .Int16 => 2
  | .Uint32 | .Int32 => 4
  | .Float32 => 4
  | .SFix _ _ => 0
  | .UFix w _ => if w ≤ 8 then 1 else if w ≤ 16 then 2 else if w ≤ 32 then 4 else 8

/-- Types whose `decode_bytes` arm exists (everything except the
`_ => todo!()` fall-throughs: `Float32`, `SFix`, and `UFix` wider than
64 bits). -/
def tyImplemented : Ty → Bool
  | .Uint8 | .Uint16 | .Uint32 | .Int8 | .Int16 | .Int32 => true
  | .UFix w _ => w ≤ 64
  | _ => false

def widthSum (sigs : List SignalDescriptor) : Nat :=
  (sigs.map (fun sg => tyWidth sg.ty)).sum

theorem readMap_fail_iff (n : Nat) (mk : List Nat → Value) (bs : List Nat) :
    readMap n mk bs = .fail ↔ bs.length < n := by
  unfold readMap readerRead
  by_cases h : n ≤ bs.length
  · simp [h]
  · simp [h]
    omega

theorem readMap_ok_rest (n : Nat) (mk : List Nat → Value) (bs : List Nat)
    (v : Value) (r : List Nat) (h : readMap n mk bs = .ok v r) :
    r = bs.drop n := by
  unfold readMap readerRead at h
  by_cases hn : n ≤ bs.length <;> simp [hn] at h
  exact h.2.symm

theorem readMap_ne_panic (n : Nat) (mk : List Nat → Value) (bs : List Nat) :
    readMap n mk bs ≠ .panic := by
  unfold readMap readerRead
  by_cases h : n ≤ bs.length <;> simp [h]

/-- For an implemented type, `decode_bytes` fails exactly when the
reader is shorter than the container width, never panics, and on
success leaves exactly the bytes past the container width. -/
theorem decode_bytes_of_impl (t : Ty) (ht : tyImplemented t = true) (bs : List Nat) :
    (t.decode_bytes bs = .fail ↔ bs.length < tyWidth t) ∧
    (∀ v r, t.decode_bytes bs = .ok v r → r = bs.drop (tyWidth t)) ∧
    t.decode_bytes bs ≠ .panic := by
  cases t with
  | Uint8 | Uint16 | Uint32 | Int8 | Int16 | Int32 =>
    exact ⟨readMap_fail_iff _ _ _, fun v r => readMap_ok_rest _ _ _ v r,
      readMap_ne_panic _ _ _⟩
  | Float32 => simp [tyImplemented] at ht
  | SFix w e => simp [tyImplemented] at ht
  | UFix w e =>
    have h64 : w ≤ 64 := by simpa [tyImplemented] using ht
    by_cases h8 : w ≤ 8
    · simp only [Ty.decode_bytes, tyWidth, h8, if_true]
      exact ⟨readMap_fail_iff _ _ _, fun v r => readMap_ok_rest _ _ _ v r,
        readMap_ne_panic _ _ _⟩
    · by_cases h16 : w ≤ 16
      · simp only [Ty.decode_bytes, tyWidth, h8, h16, if_true, if_false]
        exact ⟨readMap_fail_iff _ _ _, fun v r => readMap_ok_rest _ _ _ v r,
          readMap_ne_panic _ _ _⟩
      · by_cases h32 : w ≤ 32
        · simp only [Ty.decode_bytes, tyWidth, h8, h16, h32, if_true, if_false]
          exact ⟨readMap_fail_iff _ _ _, fun v r => readMap_ok_rest _ _ _ v r,
            readMap_ne_panic _ _ _⟩
        · simp only [Ty.decode_bytes, tyWidth, h8, h16, h32, h64, if_true, if_false]
          exact ⟨readMap_fail_iff _ _ _, fun v r => readMap_ok_rest _ _ _ v r,
            readMap_ne_panic _ _ _⟩

/-- The decode loop of `update_from_bytes` over implemented types
succeeds exactly when the payload holds at least the summed container
widths; surplus bytes are never inspected. -/
theorem updateLoop_spec (sigs : List SignalDescriptor)
    (h : ∀ sg ∈ sigs, tyImplemented sg.ty = true) :
    ∀ data i bs, ∃ data',
      updateLoop sigs data i bs = some (data', decide (widthSum sigs ≤ bs.length)) := by
  induction sigs with
  | nil =>
    intro data i bs
    exact ⟨data, by simp [updateLoop, widthSum]⟩
  | cons sg rest ih =>
    intro data i bs
    have hsg : tyImplemented sg.ty = true := h sg (by simp)
    have hrest : ∀ s ∈ rest, tyImplemented s.ty = true :=
      fun s hs => h s (by simp [hs])
    obtain ⟨hfail, hok, hpanic⟩ := decode_bytes_of_impl sg.ty hsg bs
    cases hdec : sg.ty.decode_bytes bs with
    | panic => exact absurd hdec hpanic
    | fail =>
      have hshort : bs.length < tyWidth sg.ty := hfail.mp hdec
      refine ⟨data, ?_⟩
      simp only [updateLoop, hdec]
      have : ¬ (widthSum (sg :: rest) ≤ bs.length) := by
        simp only [widthSum, List.map_cons, List.sum_cons]
        omega
      simp [this]
    | ok v r =>
      have hr : r = bs.drop (tyWidth sg.ty) := hok v r hdec
      have hlong : ¬ (bs.length < tyWidth sg.ty) := by
        intro hc
        rw [hfail.mpr hc] at hdec
        cases hdec
      obtain ⟨data', hd⟩ := ih hrest (data.set i v) (i + 1) r
      refine ⟨data', ?_⟩
      simp only [updateLoop, hdec]
      rw [hd]
      have : (widthSum rest ≤ r.length) ↔ (widthSum (sg :: rest) ≤ bs.length) := by
        subst hr
        simp only [List.length_drop, widthSum, List.map_cons, List.sum_cons]
        omega
      simp only [this]

/-- A one-`uint16`-signal frame descriptor used to exercise C1. -/
def c1desc : SignalFrameDescriptor := ⟨1, strBytes "f", true, [⟨strBytes "a", .Uint16⟩]⟩

def c1fs : FrameState := ⟨c1desc, SignalFrameValue.new c1desc⟩

/-- Counterexample to C1: a frame with one `uint16` signal and a
3-byte payload — the payload length differs from the declared width sum
(2), yet the decode SUCCEEDS (`true`), the surplus byte being silently
ignored; the claim demands failure for any length mismatch. -/
theorem update_from_bytes_length_mismatch_accepted :
    (SignalFrameValue.new c1desc).update_from_bytes 7 [1, 2, 3] =
      some (⟨c1desc, 7, [.Uint16 513]⟩, true) := by
  rfl

/-- C1 amended: over implemented signal types, `update_from_bytes`
fails exactly when the payload is SHORTER than the sum of the declared
container widths (longer payloads succeed, surplus ignored); the
timestamp is written before any signal is decoded, so even a failed
decode mutates the cached value; and the dispatch loop ignores the
decode's boolean result, invoking every registered callback whether or
not the decode succeeded. -/
theorem update_from_bytes_and_dispatch_behaviour :
    (∀ (sfv : SignalFrameValue) (ts : Nat) (bytes : List Nat),
      (∀ sg ∈ sfv.descriptor.signals, tyImplemented sg.ty = true) →
      ∃ sfv' ok, sfv.update_from_bytes ts bytes = some (sfv', ok) ∧
        sfv'.timestamp = ts ∧ sfv'.descriptor = sfv.descriptor ∧
        (ok = true ↔ widthSum sfv.descriptor.signals ≤ bytes.length)) ∧
    (∀ (m : List (Nat × FrameState)) (fs : FrameState) (n : Nat)
        (frame : RawSignalFrame),
      assocLookup m frame.frame_id = some fs →
      (∀ sg ∈ fs.latest_value.descriptor.signals, tyImplemented sg.ty = true) →
      ∃ m', processRawFrame (some m) n frame = some (some m', n)) := by
  have main : ∀ (sfv : SignalFrameValue) (ts : Nat) (bytes : List Nat),
      (∀ sg ∈ sfv.descriptor.signals, tyImplemented sg.ty = true) →
      ∃ sfv' ok, sfv.update_from_bytes ts bytes = some (sfv', ok) ∧
        sfv'.timestamp = ts ∧ sfv'.descriptor = sfv.descriptor ∧
        (ok = true ↔ widthSum sfv.descriptor.signals ≤ bytes.length) := by
    intro sfv ts bytes h
    obtain ⟨data', hd⟩ := updateLoop_spec sfv.descriptor.signals h sfv.data 0 bytes
    refine ⟨{ sfv with timestamp := ts, data := data' },
      decide (widthSum sfv.descriptor.signals ≤ bytes.length), ?_, rfl, rfl, by simp⟩
    rw [SignalFrameValue.update_from_bytes, hd]
    rfl
  refine ⟨main, fun m fs n frame hlook h => ?_⟩
  obtain ⟨sfv', ok, hup, -⟩ := main fs.latest_value frame.timestamp frame.data h
  refine ⟨assocInsert m frame.frame_id { fs with latest_value := sfv' }, ?_⟩
  simp only [processRawFrame, hlook, hup, Option.map_some']

/-- Witness for C1's amended theorem: a too-short payload (1 byte for a
2-byte schema) fails the decode, yet the dispatch still reports all 3
registered callbacks fired. -/
theorem update_from_bytes_and_dispatch_behaviour_witness :
    (∃ sfv' ok,
      (SignalFrameValue.new c1desc).update_from_bytes 7 [9] = some (sfv', ok) ∧
      sfv'.timestamp = 7 ∧ sfv'.descriptor = c1desc ∧
      (ok = true ↔ widthSum c1desc.signals ≤ ([9] : List Nat).length)) ∧
    (∃ m', processRawFrame (some [(1, c1fs)]) 3 ⟨1, 7, [9]⟩ = some (some m', 3)) :=
  ⟨update_from_bytes_and_dispatch_behaviour.1
      (SignalFrameValue.new c1desc) 7 [9] (by decide),
   update_from_bytes_and_dispatch_behaviour.2
      [(1, c1fs)] c1fs 3 ⟨1, 7, [9]⟩ (by decide) (by decide)⟩

/-! ## Claim C6 — `get_frames` rediscovers on every call -/

def c6desc : SignalFrameDescriptor := ⟨1, strBytes "a", true, []⟩

def c6cache : List (Nat × FrameState) := [(1, ⟨c6desc, SignalFrameValue.new c6desc⟩)]

/-- Counterexample to C6: with a cache already loaded (frame 1), a
`get_frames` call against a device now listing frame 2 does NOT leave
the cached state unchanged — it reruns discovery and replaces the whole
cache with the rebuilt map. -/
theorem get_frames_rebuilds_cache :
    (get_frames [⟨2, strBytes "b"⟩] [(2, ⟨false, []⟩)] (some c6cache)).map (·.1) ≠
      some (some c6cache) := by
  decide

/-- Membership in an `assocInsert` result comes from the old map or is
the new binding. -/
theorem mem_assocInsert {α : Type} {m : List (Nat × α)} {k : Nat} {v : α}
    {p : Nat × α} (hp : p ∈ assocInsert m k v) : p ∈ m ∨ p = (k, v) := by
  unfold assocInsert at hp
  by_cases hf : (m.find? (fun q => q.1 = k)).isSome
  · rw [if_pos hf] at hp
    obtain ⟨q, hq, hfq⟩ := List.mem_map.mp hp
    by_cases hqk : q.1 = k
    · right; rw [if_pos hqk] at hfq; exact hfq.symm
    · left; rw [if_neg hqk] at hfq; exact hfq ▸ hq
  · rw [if_neg hf] at hp
    rcases List.mem_append.mp hp with h | h
    · exact Or.inl h
    · exact Or.inr (by simpa using h)

/-- Every frame state the discovery pass builds carries a freshly
defaulted `latest_value`. -/
theorem ensure_fresh_values (frames : List FrameInfo)
    (infos : List (Nat × FrameDetails)) (m : List (Nat × FrameState))
    (h : ensure_frame_descriptors_loaded frames infos = some m) :
    ∀ p ∈ m, p.2.latest_value = SignalFrameValue.new p.2.descriptor := by
  have gen : ∀ (fr : List FrameInfo) (acc m' : List (Nat × FrameState)),
      (∀ p ∈ acc, p.2.latest_value = SignalFrameValue.new p.2.descriptor) →
      fr.foldlM
        (fun acc f =>
          match assocLookup infos f.id with
          | none => none
          | some det =>
            let descriptor : SignalFrameDescriptor :=
              ⟨f.id, f.name, det.enabled,
               det.signals.map (fun s => ⟨s.name, s.ty⟩)⟩
            some (assocInsert acc f.id
              ⟨descriptor, SignalFrameValue.new descriptor⟩))
        acc = some m' →
      ∀ p ∈ m', p.2.latest_value = SignalFrameValue.new p.2.descriptor := by
    intro fr
    induction fr with
    | nil =>
      intro acc m' hacc hf
      simp only [List.foldlM_nil, Option.pure_def, Option.some.injEq] at hf
      exact hf ▸ hacc
    | cons f rest ih =>
      intro acc m' hacc hf
      simp only [List.foldlM_cons] at hf
      cases hl : assocLookup infos f.id with
      | none => rw [hl] at hf; cases hf
      | some det =>
        rw [hl] at hf
        refine ih _ _ ?_ hf
        intro p hp
        rcases mem_assocInsert hp with h | h
        · exact hacc p h
        · rw [h]
  exact gen frames [] m (by simp) h

instance : IsTotal SignalFrameDescriptor (fun a b => a.id ≤ b.id) :=
  ⟨fun a b => Nat.le_total a.id b.id⟩

instance : IsTrans SignalFrameDescriptor (fun a b => a.id ≤ b.id) :=
  ⟨fun _ _ _ => Nat.le_trans⟩

/-- C6 amended: `get_frames` performs the `list_frames` +
`get_frame_info` discovery pass on EVERY call (the cache argument is
never consulted), installs the rebuilt cache — resetting every cached
`latest_value` to defaults — and returns the rebuilt descriptors sorted
by `frame_id` ascending. -/
theorem get_frames_rediscovers_and_sorts :
    (∀ frames infos c₁ c₂, get_frames frames infos c₁ = get_frames frames infos c₂) ∧
    (∀ frames infos c m out, get_frames frames infos c = some (m, out) →
      List.Sorted (fun a b => a.id ≤ b.id) out ∧
      m = ensure_frame_descriptors_loaded frames infos ∧
      ∀ mm, m = some mm →
        ∀ p ∈ mm, p.2.latest_value = SignalFrameValue.new p.2.descriptor) := by
  refine ⟨fun _ _ _ _ => rfl, fun frames infos c m out h => ?_⟩
  unfold get_frames at h
  cases he : ensure_frame_descriptors_loaded frames infos with
  | none => rw [he] at h; cases h
  | some m0 =>
    rw [he] at h
    injection h with h
    injection h with h1 h2
    refine ⟨?_, h1.symm, ?_⟩
    · rw [← h2]
      exact List.sorted_insertionSort _ _
    · intro mm hmm
      rw [← h1] at hmm
      injection hmm with hmm
      exact hmm ▸ ensure_fresh_values frames infos m0 he

/-- Witness for C6's amended theorem at the counterexample instance. -/
theorem get_frames_rediscovers_and_sorts_witness :
    List.Sorted (fun a b => a.id ≤ b.id)
      [(⟨2, strBytes "b", false, []⟩ : SignalFrameDescriptor)] ∧
    (some [(2, ⟨⟨2, strBytes "b", false, []⟩,
        SignalFrameValue.new ⟨2, strBytes "b", false, []⟩⟩)] : Option (List (Nat × FrameState))) =
      ensure_frame_descriptors_loaded [⟨2, strBytes "b"⟩] [(2, ⟨false, []⟩)] ∧
    ∀ mm, (some [(2, ⟨⟨2, strBytes "b", false, []⟩,
        SignalFrameValue.new ⟨2, strBytes "b", false, []⟩⟩)] : Option (List (Nat × FrameState))) = some mm →
      ∀ p ∈ mm, p.2.latest_value = SignalFrameValue.new p.2.descriptor :=
  get_frames_rediscovers_and_sorts.2 [⟨2, strBytes "b"⟩] [(2, ⟨false, []⟩)]
    (some c6cache) _ _ (by rfl)

/-! ## Claim C2 — what the CRC check actually covers -/

/-- A full wire frame whose `LEN` field is `258` (bytes `02 01 00 00`)
carrying the enable-acknowledgement payload `'e' 'E'`, with the CRC
field set to CRC-16/ARC over exactly `'e' 'E'` — the range the claim
says is authoritative.  `crc16 [101, 69] = 41962 = 0xA3EA`. -/
def c2input : List Nat :=
  [0xBB, 0xBB, 0xBB, 0xBB, 0x02, 0x01, 0, 0, 101, 69, 234, 163, 0xEE]

set_option maxRecDepth 4000 in
/-- Counterexample to C2: the CRC field equals CRC-16/ARC over the
payload range `PAYLOAD_START_CHAR..PAYLOAD_END_CHAR`, yet the decoder
REJECTS the frame, because its check hashes `buffer[5 .. offset-2]`,
which drags in the three high bytes of `LEN` (`01 00 00` here) — so
acceptance does depend on the `LEN` field. -/
theorem crc_accept_depends_on_len_bytes :
    leVal [234, 163] = crc16 [101, 69] ∧
    ((Decoder.new.add_data c2input).decode).map (·.2) =
      some (.Err "Invalid frame CRC") := by
  exact ⟨by rfl, by decide⟩

theorem crc16_cons_zero (l : List Nat) : crc16 (0 :: l) = crc16 l := by
  have h : crc16Step 0 0 = 0 := by decide
  simp [crc16, List.foldl_cons, h]

/-- C2 amended: in state `Crc` the check passes iff the 2-byte field
equals CRC-16/ARC over `buffer[5 .. offset)` — the three HIGH bytes of
the `LEN` field followed by `PAYLOAD_START_CHAR..PAYLOAD_END_CHAR` —
not over the payload span alone.  The two ranges agree exactly when
those three `LEN` bytes are zero, i.e. whenever `LEN < 256` (CRC-16/ARC
has zero initial state, so leading zero bytes are absorbed). -/
theorem crc_check_covers_len_tail (d : Decoder) (pt : PayloadType)
    (hst : d.state = .Crc pt) (hoff : 5 ≤ d.offset) (hub : 2 ≤ d.unread) :
    (decodeStep d =
      if leVal (d.peekBytes 2) = crc16 ((d.buffer.take d.offset).drop 5) then
        .next { d with offset := d.offset + 2, state := .EndChar pt } .None
      else
        .next (Decoder.clear_read { d with offset := d.offset + 2, state := .StartWord })
          (.Err "Invalid frame CRC")) ∧
    (∀ rest, d.buffer.drop 5 = 0 :: 0 :: 0 :: rest → 8 ≤ d.offset →
      crc16 ((d.buffer.take d.offset).drop 5) = crc16 ((d.buffer.take d.offset).drop 8)) := by
  constructor
  · have h2 : ¬ d.unread < 2 := by omega
    have h5 : ¬ d.offset < 5 := by omega
    simp only [decodeStep, hst, h2, if_false, h5]
  · intro rest hdrop hoff8
    have h5 : (d.buffer.take d.offset).drop 5 =
        (0 :: 0 :: 0 :: rest).take (d.offset - 5) := by
      rw [List.drop_take, hdrop]
    have h8 : (d.buffer.take d.offset).drop 8 = rest.take (d.offset - 8) := by
      rw [List.drop_take]
      have : d.buffer.drop 8 = rest := by
        have : d.buffer.drop 8 = (d.buffer.drop 5).drop 3 := by
          rw [List.drop_drop]
        rw [this, hdrop]
        rfl
      rw [this]
    rw [h5, h8]
    have h3 : 3 ≤ d.offset - 5 := by omega
    obtain ⟨k, hk⟩ : ∃ k, d.offset - 5 = k + 3 := ⟨d.offset - 8, by omega⟩
    rw [hk]
    have hk' : d.offset - 8 = k := by omega
    rw [hk']
    simp only [List.take_succ_cons, crc16_cons_zero]

/-- Witness for C2's amended theorem: the decoder paused right before
the CRC field of the `c2input` frame takes the `Err` branch, since the
field does not hash the `LEN` tail `[1, 0, 0]`. -/
theorem crc_check_covers_len_tail_witness :
    (decodeStep ⟨.Crc .EnableFrame, c2input, 10, 258, 8, default, default, default⟩ =
      if leVal ((⟨.Crc .EnableFrame, c2input, 10, 258, 8, default, default,
          default⟩ : Decoder).peekBytes 2) =
        crc16 ((c2input.take 10).drop 5) then
        .next ⟨.EndChar .EnableFrame, c2input, 12, 258, 8, default, default, default⟩ .None
      else
        .next (Decoder.clear_read
          ⟨.StartWord, c2input, 12, 258, 8, default, default, default⟩)
          (.Err "Invalid frame CRC")) ∧
    (∀ rest, c2input.drop 5 = 0 :: 0 :: 0 :: rest → 8 ≤ 10 →
      crc16 ((c2input.take 10).drop 5) = crc16 ((c2input.take 10).drop 8)) :=
  crc_check_covers_len_tail
    ⟨.Crc .EnableFrame, c2input, 10, 258, 8, default, default, default⟩
    .EnableFrame rfl (by decide) (by decide)

/-! ## Claim C3 — the `'('` null-frame arm is dead code -/

/-- A `'('`-framed null/keepalive message whose CRC field (`0x3412`) is
corrupted: CRC-16/ARC over `'(' ')'` is `0xDEDF` (and over the
`LEN`-tail-extended range `[0,0,0,40,41]` likewise, zero bytes being
absorbed).  Under the specified state machine this must emit
`Err("Invalid frame CRC")`. -/
def c3input : List Nat :=
  [0xBB, 0xBB, 0xBB, 0xBB, 0x02, 0, 0, 0, 40, 41, 0x12, 0x34, 0xEE]

set_option maxRecDepth 4000 in
/-- C3: the source writes the `b'('` match arm after the catch-all `_`
arm, so it is unreachable — byte `'('` takes the unknown-start-char
resynchronisation path instead.  Decoding a `'('`-framed message with a
corrupted CRC therefore emits NO event at all (the frame is silently
discarded, the decoder ends back in `StartWord`), where the claim — and
§4.3.3 of the spec — demand an `Err` for the corrupted CRC. -/
theorem null_frame_silently_discarded :
    crc16 [40, 41] ≠ leVal [0x12, 0x34] ∧
    ((Decoder.new.add_data c3input).decode).map (fun p => (p.2, p.1.state)) =
      some (.None, .StartWord) := by
  exact ⟨by decide, by decide⟩

/-! ## Claim C10 — `consume_string` panics on invalid UTF-8 -/

/-- C10: in any of the three string-field states (list-frames frame
name, get-frame-info signal name or type string), once the declared
`len` bytes are available but are not valid UTF-8, `decode` panics
(`from_utf8(..).unwrap()`) instead of emitting a non-fatal `Err` — the
codec is not total over arbitrary input byte streams. -/
theorem decode_panics_on_invalid_utf8 (d : Decoder) (len : Nat)
    (hst : d.state = .ListFrames (.FrameName len) ∨
           d.state = .GetFrameInfo (.SignalName len) ∨
           d.state = .GetFrameInfo (.SignalType len))
    (hlen : len ≤ d.unread) (hutf : validUtf8 (d.peekBytes len) = false) :
    d.decode = none := by
  have hnl : ¬ d.unread < len := by omega
  have hstep : decodeStep d = .panic := by
    rcases hst with h | h | h <;> simp [decodeStep, h, hnl, hutf]
  rw [Decoder.decode]
  rw [show 2 * d.buffer.length + 2 = (2 * d.buffer.length + 1) + 1 from rfl]
  rw [decodeLoop, hstep]

/-- Witness for C10: a lone `0xFF` byte as a 1-byte frame name. -/
theorem decode_panics_on_invalid_utf8_witness :
    (⟨.ListFrames (.FrameName 1), [0xFF], 0, 9, 8, default, default,
      default⟩ : Decoder).decode = none :=
  decode_panics_on_invalid_utf8
    ⟨.ListFrames (.FrameName 1), [0xFF], 0, 9, 8, default, default, default⟩
    1 (Or.inl rfl) (by decide) (by decide)

/-! ## Claim C7 — window trim under arbitrary u32 timestamps -/

def c7desc : SignalFrameDescriptor := ⟨1, strBytes "g", true, [⟨strBytes "s", .Uint8⟩]⟩

def c7v (t : Nat) : SignalFrameValue := ⟨c7desc, t, [.Uint8 9]⟩

def c7sid : WSignalId := (1, strBytes "s")

def c7cmds : List WCmd :=
  [.AddSignal c7sid, .ProcessFrame 1 (c7v 4294967290), .ProcessFrame 1 (c7v 5)]

/-- Counterexample to C7: timestamps `4294967290` then `5` (a `u32`
wrap-around).  The trim loop sees `5 - 4294967290 ≡ 11 (mod 2^32)`,
treats the old entry as in range, and leaves a deque whose timestamp
spread `4294967290 - 5` vastly exceeds the 10000 ms window. -/
theorem window_trim_wraparound_violation :
    wbLookup (WState.init.run c7cmds).buf c7sid =
      some [(4294967290, .Uint8 9), (5, .Uint8 9)] ∧
    (WState.init.run c7cmds).window < 4294967290 - 5 := by
  exact ⟨by decide, by decide⟩

def isSetWindow : WCmd → Bool
  | .SetWindow _ => true
  | _ => false

/-- The timestamp a command feeds into the buffer, if any. -/
def cmdTs : WCmd → Option Nat
  | .ProcessFrame _ v => some v.timestamp
  | _ => none

/-- Well-formedness of one deque: timestamps non-decreasing, bounded by
`hi`, and pairwise within the window. -/
def DequeOK (w hi : Nat) (dq : List (Nat × Value)) : Prop :=
  List.Pairwise (fun a b => a.1 ≤ b.1) dq ∧
  (∀ e ∈ dq, e.1 ≤ hi) ∧
  (∀ a ∈ dq, ∀ b ∈ dq, a.1 - b.1 ≤ w)

def BufOK (w hi : Nat) (buf : List (WSignalId × List (Nat × Value))) : Prop :=
  ∀ p ∈ buf, DequeOK w hi p.2

theorem DequeOK_mono {w lo hi : Nat} (h : lo ≤ hi) {dq : List (Nat × Value)}
    (hok : DequeOK w lo dq) : DequeOK w hi dq :=
  ⟨hok.1, fun e he => le_trans (hok.2.1 e he) h, hok.2.2⟩

theorem BufOK_mono {w lo hi : Nat} (h : lo ≤ hi)
    {buf : List (WSignalId × List (Nat × Value))} (hok : BufOK w lo buf) :
    BufOK w hi buf :=
  fun p hp => DequeOK_mono h (hok p hp)

theorem wrapSub_eq (t ts : Nat) (h1 : ts ≤ t) (h2 : t < 2 ^ 32) :
    wrapSub t ts = t - ts := by
  unfold wrapSub
  have h3 : t + 2 ^ 32 - ts = (t - ts) + 2 ^ 32 := by omega
  rw [h3, Nat.add_mod_right, Nat.mod_eq_of_lt (by omega)]

theorem trimFront_sublist (t w : Nat) (l : List (Nat × Value)) :
    List.Sublist (trimFront t w l) l := by
  induction l with
  | nil => simp [trimFront]
  | cons e rest ih =>
    rw [trimFront]
    by_cases h : wrapSub t e.1 > w
    · rw [if_pos h]
      exact ih.trans (List.sublist_cons_self e rest)
    · rw [if_neg h]

theorem trimFront_head_le (t w : Nat) (l : List (Nat × Value)) :
    trimFront t w l = [] ∨
    ∃ h rest', trimFront t w l = h :: rest' ∧ wrapSub t h.1 ≤ w := by
  induction l with
  | nil => exact Or.inl rfl
  | cons e rest ih =>
    rw [trimFront]
    by_cases h : wrapSub t e.1 > w
    · rw [if_pos h]; exact ih
    · rw [if_neg h]; exact Or.inr ⟨e, rest, rfl, by omega⟩

/-- Appending the current sample and trimming preserves deque
well-formedness, with the new timestamp as the bound — PROVIDED the new
timestamp is at least every timestamp already buffered (so the wrapping
subtraction coincides with plain subtraction). -/
theorem pushTrim_ok (w t : Nat) (v : Value) (dq : List (Nat × Value))
    (hok : DequeOK w t dq) (ht32 : t < 2 ^ 32) :
    DequeOK w t (pushTrim t w v dq) := by
  obtain ⟨hsort, hhi, -⟩ := hok
  have hl_sort : List.Pairwise (fun a b => a.1 ≤ b.1) (dq ++ [(t, v)]) := by
    rw [List.pairwise_append]
    refine ⟨hsort, List.pairwise_singleton _ _, fun a ha b hb => ?_⟩
    simp only [List.mem_singleton] at hb
    subst hb
    exact hhi a ha
  have hl_hi : ∀ e ∈ dq ++ [(t, v)], e.1 ≤ t := by
    intro e he
    rcases List.mem_append.mp he with h | h
    · exact hhi e h
    · simp only [List.mem_singleton] at h
      subst h
      exact le_refl t
  unfold pushTrim
  have hsub := trimFront_sublist t w (dq ++ [(t, v)])
  refine ⟨hl_sort.sublist hsub, fun e he => hl_hi e (hsub.subset he), ?_⟩
  rcases trimFront_head_le t w (dq ++ [(t, v)]) with hemp | ⟨h, rest', heq, hh⟩
  · intro a ha
    rw [hemp] at ha
    cases ha
  · have hmemh : h ∈ dq ++ [(t, v)] := hsub.subset (by rw [heq]; simp)
    have hht : h.1 ≤ t := hl_hi h hmemh
    have hwin : t - h.1 ≤ w := by
      rw [wrapSub_eq t h.1 hht ht32] at hh
      exact hh
    have hsorted_trim : List.Pairwise (fun a b => a.1 ≤ b.1)
        (trimFront t w (dq ++ [(t, v)])) := hl_sort.sublist hsub
    intro a ha b hb
    have hat : a.1 ≤ t := hl_hi a (hsub.subset ha)
    have hhb : h.1 ≤ b.1 := by
      rw [heq] at hb hsorted_trim
      rcases List.mem_cons.mp hb with rfl | hb'
      · exact le_refl _
      · exact (List.pairwise_cons.mp hsorted_trim).1 b hb'
    omega

theorem mem_map_update {buf : List (WSignalId × List (Nat × Value))}
    {sid : WSignalId} {f : List (Nat × Value) → List (Nat × Value)}
    {p : WSignalId × List (Nat × Value)}
    (hp : p ∈ buf.map (fun q => if q.1 = sid then (q.1, f q.2) else q)) :
    (∃ q ∈ buf, p = (q.1, f q.2)) ∨ p ∈ buf := by
  obtain ⟨q, hq, hfq⟩ := List.mem_map.mp hp
  by_cases hqs : q.1 = sid
  · rw [if_pos hqs] at hfq
    exact Or.inl ⟨q, hq, hfq.symm⟩
  · rw [if_neg hqs] at hfq
    exact Or.inr (hfq ▸ hq)

/-- Every deque stays well-formed across one `ProcessFrame`, again
provided the frame's timestamp dominates everything buffered. -/
theorem processSignals_preserves (fid : Nat) (v : SignalFrameValue) (w : Nat)
    (ht32 : v.timestamp < 2 ^ 32) :
    ∀ (sigs : List SignalDescriptor) (buf : List (WSignalId × List (Nat × Value)))
      (i : Nat), BufOK w v.timestamp buf →
      BufOK w v.timestamp (processSignals fid v w buf i sigs) := by
  intro sigs
  induction sigs with
  | nil =>
    intro buf i h
    simpa [processSignals] using h
  | cons sg rest ih =>
    intro buf i h
    rw [processSignals]
    apply ih
    by_cases hl : (wbLookup buf (fid, sg.name)).isSome
    · rw [if_pos hl]
      intro p hp
      rcases mem_map_update hp with ⟨q, hq, rfl⟩ | hp'
      · exact pushTrim_ok w v.timestamp _ q.2 (h q hq) ht32
      · exact h p hp'
    · rw [if_neg hl]
      exact h

/-- One non-`SetWindow` command preserves the invariant, promoting the
timestamp bound to the processed frame's timestamp. -/
theorem step_preserves (st : WState) (w lo : Nat) (c : WCmd)
    (hw : st.window = w) (hbuf : BufOK w lo st.buf)
    (hns : isSetWindow c = false)
    (hts : ∀ t, cmdTs c = some t → lo ≤ t ∧ t < 2 ^ 32) :
    (st.step c).window = w ∧
    ∃ lo', lo ≤ lo' ∧ BufOK w lo' (st.step c).buf ∧
      (∀ t, cmdTs c = some t → lo' = t) ∧ (cmdTs c = none → lo' = lo) := by
  subst hw
  cases c with
  | SetWindow s => cases hns
  | AddSignal sid =>
    have hwin : (st.step (WCmd.AddSignal sid)).window = st.window := by
      simp only [WState.step]
      by_cases hl : (wbLookup st.buf sid).isSome
      · rw [if_pos hl]
      · rw [if_neg hl]
    have hbuf' : BufOK st.window lo (st.step (WCmd.AddSignal sid)).buf := by
      simp only [WState.step]
      by_cases hl : (wbLookup st.buf sid).isSome
      · rw [if_pos hl]; exact hbuf
      · rw [if_neg hl]
        intro p hp
        rcases List.mem_append.mp hp with h | h
        · exact hbuf p h
        · simp only [List.mem_singleton] at h
          subst h
          exact ⟨List.Pairwise.nil, by simp, by simp⟩
    refine ⟨hwin, lo, le_refl lo, hbuf', ?_, ?_⟩
    · intro t ht; cases ht
    · intro _; rfl
  | RemoveSignal sid =>
    have hwin : (st.step (WCmd.RemoveSignal sid)).window = st.window := by
      simp only [WState.step]
      by_cases hl : (wbLookup st.buf sid).isSome
      · rw [if_pos hl]
      · rw [if_neg hl]
    have hbuf' : BufOK st.window lo (st.step (WCmd.RemoveSignal sid)).buf := by
      simp only [WState.step]
      by_cases hl : (wbLookup st.buf sid).isSome
      · rw [if_pos hl]
        intro p hp
        exact hbuf p (List.mem_of_mem_filter hp)
      · rw [if_neg hl]
        exact hbuf
    refine ⟨hwin, lo, le_refl lo, hbuf', ?_, ?_⟩
    · intro t ht; cases ht
    · intro _; rfl
  | ProcessFrame fid v =>
    obtain ⟨hlo, h32⟩ := hts v.timestamp rfl
    refine ⟨rfl, v.timestamp, hlo, ?_, ?_, ?_⟩
    · exact processSignals_preserves fid v st.window h32 v.descriptor.signals st.buf 0
        (BufOK_mono hlo hbuf)
    · intro t ht; cases ht; rfl
    · intro hc; cases hc
  | TakeSnapshot =>
    refine ⟨rfl, lo, le_refl lo, hbuf, ?_, ?_⟩
    · intro t ht; cases ht
    · intro _; rfl
  | Quit =>
    refine ⟨rfl, lo, le_refl lo, hbuf, ?_, ?_⟩
    · intro t ht; cases ht
    · intro _; rfl

/-- The worker invariant over a whole command sequence without
`SetWindow`, with non-decreasing in-range frame timestamps. -/
theorem run_invariant (cmds : List WCmd) :
    ∀ (st : WState) (w lo : Nat), st.window = w → BufOK w lo st.buf →
    cmds.all (fun c => !isSetWindow c) = true →
    List.Pairwise (· ≤ ·) (cmds.filterMap cmdTs) →
    (∀ t ∈ cmds.filterMap cmdTs, lo ≤ t ∧ t < 2 ^ 32) →
    (WState.run st cmds).window = w ∧ ∃ lo', BufOK w lo' (WState.run st cmds).buf := by
  induction cmds with
  | nil =>
    intro st w lo hw hbuf _ _ _
    exact ⟨hw, lo, hbuf⟩
  | cons c rest ih =>
    intro st w lo hw hbuf hall hpair hrange
    have hns : isSetWindow c = false := by
      have := (List.all_eq_true.mp hall) c (by simp)
      simpa using this
    have hall' : rest.all (fun c => !isSetWindow c) = true :=
      List.all_eq_true.mpr fun x hx => (List.all_eq_true.mp hall) x (by simp [hx])
    have hstep := step_preserves st w lo c hw hbuf hns ?hts
    case hts =>
      intro t ht
      apply hrange
      simp [List.filterMap_cons, ht]
    obtain ⟨hw', lo', hlo', hbuf', hup, hnone⟩ := hstep
    have hrun : WState.run st (c :: rest) = WState.run (st.step c) rest := by
      simp [WState.run]
    rw [hrun]
    cases hc : cmdTs c with
    | none =>
      have hlo'' := hnone hc
      refine ih (st.step c) w lo' hw' hbuf' hall' ?_ ?_
      · simpa [List.filterMap_cons, hc] using hpair
      · intro t ht
        have hb := hrange t (by simp [List.filterMap_cons, hc, ht])
        exact ⟨by rw [hlo'']; exact hb.1, hb.2⟩
    | some t0 =>
      have hfc : (c :: rest).filterMap cmdTs = t0 :: rest.filterMap cmdTs := by
        simp [List.filterMap_cons, hc]
      rw [hfc] at hpair hrange
      obtain ⟨hhead, hpair'⟩ := List.pairwise_cons.mp hpair
      have hlo't0 : lo' = t0 := hup t0 hc
      refine ih (st.step c) w lo' hw' hbuf' hall' hpair' ?_
      intro t ht
      exact ⟨hlo't0 ▸ hhead t ht, (hrange t (List.mem_cons_of_mem t0 ht)).2⟩

theorem wbLookup_mem {buf : List (WSignalId × List (Nat × Value))}
    {sid : WSignalId} {dq : List (Nat × Value)}
    (h : wbLookup buf sid = some dq) : (sid, dq) ∈ buf := by
  unfold wbLookup at h
  cases hf : buf.find? (fun p => p.1 = sid) with
  | none => rw [hf] at h; cases h
  | some p =>
    rw [hf] at h
    have hm := List.mem_of_find?_eq_some hf
    have hp := List.find?_some hf
    have hps : p.1 = sid := by simpa using hp
    injection h with h
    have : p = (sid, dq) := by
      cases p
      simp only at hps h
      rw [hps, h]
    exact this ▸ hm

/-- C7 amended: for command sequences without `SetWindow` whose
`ProcessFrame` timestamps are non-decreasing and below `2^32` (no
wrap-around), every tracked deque keeps its timestamp spread within the
default 10000 ms window: any two buffered entries `a, b` satisfy
`a.1 - b.1 ≤ 10000`, i.e. max − min ≤ window.  With arbitrary `u32`
timestamps the wrapping subtraction defeats the trim (see the
counterexample), so the monotonicity restriction is necessary. -/
theorem window_trim_monotone_timestamps (cmds : List WCmd)
    (hsw : cmds.all (fun c => !isSetWindow c) = true)
    (hmono : List.Pairwise (· ≤ ·) (cmds.filterMap cmdTs))
    (hbound : ∀ t ∈ cmds.filterMap cmdTs, t < 2 ^ 32) :
    ∀ sid dq, wbLookup (WState.init.run cmds).buf sid = some dq →
      (WState.init.run cmds).window = 10000 ∧
      ∀ a ∈ dq, ∀ b ∈ dq, a.1 - b.1 ≤ 10000 := by
  obtain ⟨hw, lo', hbuf⟩ := run_invariant cmds WState.init 10000 0 rfl
    (fun p hp => absurd hp (List.not_mem_nil p)) hsw hmono
    (fun t ht => ⟨Nat.zero_le t, hbound t ht⟩)
  intro sid dq hlook
  exact ⟨hw, (hbuf (sid, dq) (wbLookup_mem hlook)).2.2⟩

def c7cmdsW : List WCmd :=
  [.AddSignal c7sid, .ProcessFrame 1 (c7v 100), .ProcessFrame 1 (c7v 200)]

/-- Witness for C7's amended theorem on a monotone two-sample stream. -/
theorem window_trim_monotone_timestamps_witness :
    (WState.init.run c7cmdsW).window = 10000 ∧
    ((100 : Nat), Value.Uint8 9).1 - ((200 : Nat), Value.Uint8 9).1 ≤ 10000 := by
  have h := window_trim_monotone_timestamps c7cmdsW (by decide) (by decide)
    (by decide) c7sid [(100, Value.Uint8 9), (200, Value.Uint8 9)] (by decide)
  exact ⟨h.1, h.2 (100, Value.Uint8 9) (by simp) (200, Value.Uint8 9) (by simp)⟩

/-! ## Claim C4 — codec progress -/

/-- Counterexample to C4: one unread byte in `StartWord` (the magic
needs four).  `decode` returns `None` without consuming anything —
neither a cursor advance nor an event, although the unread input is
non-empty. -/
theorem decode_no_progress_short_input :
    (Decoder.new.add_data [0xBB]).unread = 1 ∧
    (Decoder.new.add_data [0xBB]).decode =
      some (Decoder.new.add_data [0xBB], .None) := by
  exact ⟨rfl, rfl⟩

/-- How many unread bytes the decoder's current step must find before
it can consume anything: the read size of the state, except that a
zero-length pending read (`Data(0)`, `FrameName(0)`, `SignalName(0)`)
charges ahead to the read size of the state it falls through to. -/
def Decoder.need (d : Decoder) : Nat :=
  match d.state with
  | .StartWord => 4
  | .FrameLength => 4
  | .PayloadStartChar => 1
  | .DataFrame s =>
    match s with
    | .FrameId | .Timestamp | .DataLen => 4
    | .Data len => if len = 0 then 1 else len
  | .ListFrames s =>
    match s with
    | .NumFrames | .FrameId => 4
    | .FrameNameLen => 1
    | .FrameName len =>
      if len = 0 then
        (if d.list_frames.frames.length + 1 = d.list_frames.num_frames then 1 else 4)
      else len
  | .GetFrameInfo s =>
    match s with
    | .IsEnabled => 1
    | .NumSignals => 4
    | .SignalNameLen => 1
    | .SignalName len => if len = 0 then 1 else len
    | .SignalTypeLen => 1
    | .SignalType len => len
  | .PayloadEndChar _ _ => 1
  | .Crc _ => 2
  | .EndChar _ => 1

/-- One iteration never grows the unread byte count. -/
theorem decodeStep_mono (d : Decoder) :
    match decodeStep d with
    | .panic => True
    | .stall d' => d'.unread ≤ d.unread
    | .next d' _ => d'.unread ≤ d.unread := by
  have hclear : ∀ (e : Decoder), e.clear_read.unread ≤ e.unread := by
    intro e
    simp [Decoder.clear_read, Decoder.unread]
  cases hs : d.state with
  | StartWord =>
    simp only [decodeStep, hs]
    split_ifs <;> simp [Decoder.unread, Decoder.clear_read] <;> omega
  | FrameLength =>
    simp only [decodeStep, hs]
    split_ifs <;> (simp [Decoder.unread]; try omega)
  | PayloadStartChar =>
    simp only [decodeStep, hs]
    split_ifs <;> simp [Decoder.unread, Decoder.clear_read] <;> omega
  | DataFrame s =>
    cases s <;> (simp only [decodeStep, hs]; split_ifs <;>
      simp [Decoder.unread] <;> omega)
  | ListFrames s =>
    cases s <;> (simp only [decodeStep, hs]; split_ifs <;>
      simp [Decoder.unread] <;> omega)
  | GetFrameInfo s =>
    cases s with
    | SignalType len =>
      simp only [decodeStep, hs]
      split_ifs with h1 h2
      · simp [Decoder.unread]
      · cases hpt : parse_type_name (d.peekBytes len) <;>
          simp [hpt, Decoder.unread] <;> omega
      · simp
    | _ =>
      simp only [decodeStep, hs]
      split_ifs <;> simp [Decoder.unread, Decoder.clear_read] <;> omega
  | PayloadEndChar pt ec =>
    simp only [decodeStep, hs]
    split_ifs <;> simp [Decoder.unread, Decoder.clear_read] <;> omega
  | Crc pt =>
    simp only [decodeStep, hs]
    split_ifs <;> simp [Decoder.unread, Decoder.clear_read] <;> omega
  | EndChar pt =>
    simp only [decodeStep, hs]
    split_ifs <;> simp [Decoder.unread, Decoder.clear_read] <;> omega

/-- The decode loop never grows the unread byte count. -/
theorem decodeLoop_mono (fuel : Nat) :
    ∀ (d d' : Decoder) (r : DecodeResult),
      decodeLoop fuel d = some (d', r) → d'.unread ≤ d.unread := by
  induction fuel with
  | zero =>
    intro d d' r h
    simp only [decodeLoop, Option.some.injEq] at h
    rw [(Prod.mk.injEq .. |>.mp h.symm).1]
  | succ n ih =>
    intro d d' r h
    have hm := decodeStep_mono d
    rw [decodeLoop] at h
    cases hst : decodeStep d with
    | panic => rw [hst] at h; cases h
    | stall d1 =>
      rw [hst] at h
      rw [hst] at hm
      injection h with h
      cases h
      exact hm
    | next d1 r1 =>
      rw [hst] at h
      rw [hst] at hm
      cases r1 with
      | None => exact le_trans (ih d1 d' r h) hm
      | CmdFrame f => injection h with h; cases h; exact hm
      | SignalFrame f => injection h with h; cases h; exact hm
      | Err m => injection h with h; cases h; exact hm

/-- If some iteration consumes a byte, the whole call makes progress
(or panics). -/
theorem decodeLoop_progress_of_consume (n : Nat) (d0 d1 : Decoder)
    (r1 : DecodeResult) (hstep : decodeStep d0 = .next d1 r1)
    (hlt : d1.unread < d0.unread) :
    decodeLoop (n + 1) d0 = none ∨
    ∃ d' r, decodeLoop (n + 1) d0 = some (d', r) ∧ d'.unread < d0.unread := by
  rw [decodeLoop, hstep]
  cases r1 with
  | None =>
    cases hl : decodeLoop n d1 with
    | none => exact Or.inl hl
    | some p =>
      exact Or.inr ⟨p.1, p.2, hl,
        lt_of_le_of_lt (decodeLoop_mono n d1 p.1 p.2 hl) hlt⟩
  | CmdFrame f => exact Or.inr ⟨d1, _, rfl, hlt⟩
  | SignalFrame f => exact Or.inr ⟨d1, _, rfl, hlt⟩
  | Err m => exact Or.inr ⟨d1, _, rfl, hlt⟩

/-- In state `PayloadEndChar` with a byte available, the step always
consumes it. -/
theorem stepPayloadEndChar (e : Decoder) (pt : PayloadType) (ec : Nat)
    (hs : e.state = .PayloadEndChar pt ec) (h1 : 1 ≤ e.unread) :
    ∃ d2 r2, decodeStep e = .next d2 r2 ∧ d2.unread < e.unread := by
  simp only [Decoder.unread] at h1
  have h1' : ¬ e.unread < 1 := by simp only [Decoder.unread]; omega
  simp only [decodeStep, hs]
  rw [if_neg h1']
  split_ifs <;>
    exact ⟨_, _, rfl, by simp [Decoder.unread, Decoder.clear_read]; omega⟩

/-- In state `ListFrames FrameId` with four bytes available, the step
always consumes them. -/
theorem stepListFrameId (e : Decoder)
    (hs : e.state = .ListFrames .FrameId) (h4 : 4 ≤ e.unread) :
    ∃ d2 r2, decodeStep e = .next d2 r2 ∧ d2.unread < e.unread := by
  simp only [Decoder.unread] at h4
  have h4' : ¬ e.unread < 4 := by simp only [Decoder.unread]; omega
  simp only [decodeStep, hs]
  rw [if_neg h4']
  exact ⟨_, _, rfl, by simp [Decoder.unread]; omega⟩

/-- In state `GetFrameInfo SignalTypeLen` with a byte available, the
step always consumes it. -/
theorem stepSignalTypeLen (e : Decoder)
    (hs : e.state = .GetFrameInfo .SignalTypeLen) (h1 : 1 ≤ e.unread) :
    ∃ d2 r2, decodeStep e = .next d2 r2 ∧ d2.unread < e.unread := by
  simp only [Decoder.unread] at h1
  have h1' : ¬ e.unread < 1 := by simp only [Decoder.unread]; omega
  simp only [decodeStep, hs]
  rw [if_neg h1']
  exact ⟨_, _, rfl, by simp [Decoder.unread]; omega⟩

/-- C4 amended: one decode call either panics, consumes at least one
byte, or emits an event, PROVIDED the unread input covers the current
step's read size (`Decoder.need`) and the state is not the degenerate
zero-length type-string state (where `parse_type_name ""` fails and the
loop breaks without consuming).  With fewer bytes than the current step
needs, the call returns `None` leaving the cursor unchanged (see the
counterexample), so the claim's unconditional progress does not hold. -/
theorem decode_progress_with_sufficient_bytes (d : Decoder)
    (hne : 0 < d.unread) (hneed : d.need ≤ d.unread)
    (hst : d.state ≠ .GetFrameInfo (.SignalType 0)) :
    d.decode = none ∨
    ∃ d' r, d.decode = some (d', r) ∧ (d'.unread < d.unread ∨ r ≠ .None) := by
  have hsplit : 2 * d.buffer.length + 2 = 2 * d.buffer.length + 1 + 1 := rfl
  have hpanicC : decodeStep d = .panic → d.decode = none := by
    intro h
    rw [Decoder.decode, hsplit, decodeLoop, h]
  have hstallC : ∀ d1, decodeStep d = .stall d1 →
      d.decode = some (d1, .None) := by
    intro d1 h
    rw [Decoder.decode, hsplit, decodeLoop, h]
  have consumeE : (∃ d1 r1, decodeStep d = .next d1 r1 ∧ d1.unread < d.unread) →
      d.decode = none ∨
      ∃ d' r, d.decode = some (d', r) ∧ (d'.unread < d.unread ∨ r ≠ .None) := by
    rintro ⟨d1, r1, h, hlt⟩
    rcases decodeLoop_progress_of_consume (2 * d.buffer.length + 1) d d1 r1 h hlt
      with h' | ⟨d', r, h', hlt'⟩
    · exact Or.inl (by rw [Decoder.decode, hsplit]; exact h')
    · exact Or.inr ⟨d', r, by rw [Decoder.decode, hsplit]; exact h', Or.inl hlt'⟩
  have consume2E : (∃ d1, decodeStep d = .next d1 .None ∧ d1.unread = d.unread ∧
      ∃ d2 r2, decodeStep d1 = .next d2 r2 ∧ d2.unread < d1.unread) →
      d.decode = none ∨
      ∃ d' r, d.decode = some (d', r) ∧ (d'.unread < d.unread ∨ r ≠ .None) := by
    rintro ⟨d1, h, hu, d2, r2, h2, hlt⟩
    have hd : d.decode = decodeLoop (2 * d.buffer.length + 1) d1 := by
      rw [Decoder.decode, hsplit, decodeLoop, h]
    rcases decodeLoop_progress_of_consume (2 * d.buffer.length) d1 d2 r2 h2 hlt
      with h' | ⟨d', r, h', hlt'⟩
    · exact Or.inl (by rw [hd]; exact h')
    · exact Or.inr ⟨d', r, by rw [hd]; exact h',
        Or.inl (by rw [← hu]; exact hlt')⟩
  cases hs : d.state with
  | StartWord =>
    simp only [Decoder.need, hs] at hneed
    simp only [Decoder.unread] at hne hneed
    have h4 : ¬ d.unread < 4 := by simp only [Decoder.unread]; omega
    apply consumeE
    simp only [decodeStep, hs]
    rw [if_neg h4]
    split_ifs with hm
    · exact ⟨_, _, rfl, by simp [Decoder.unread]; omega⟩
    · exact ⟨_, _, rfl, by simp [Decoder.unread, Decoder.clear_read]; omega⟩
  | FrameLength =>
    simp only [Decoder.need, hs] at hneed
    simp only [Decoder.unread] at hne hneed
    have h4 : ¬ d.unread < 4 := by simp only [Decoder.unread]; omega
    apply consumeE
    simp only [decodeStep, hs]
    rw [if_neg h4]
    exact ⟨_, _, rfl, by simp [Decoder.unread]; omega⟩
  | PayloadStartChar =>
    simp only [Decoder.unread] at hne
    have h1 : ¬ d.unread < 1 := by simp only [Decoder.unread]; omega
    apply consumeE
    simp only [decodeStep, hs]
    rw [if_neg h1]
    split_ifs <;>
      exact ⟨_, _, rfl, by simp [Decoder.unread, Decoder.clear_read]; omega⟩
  | DataFrame s =>
    cases s with
    | FrameId =>
      simp only [Decoder.need, hs] at hneed
      simp only [Decoder.unread] at hne hneed
      have h4 : ¬ d.unread < 4 := by simp only [Decoder.unread]; omega
      apply consumeE
      simp only [decodeStep, hs]
      rw [if_neg h4]
      exact ⟨_, _, rfl, by simp [Decoder.unread]; omega⟩
    | Timestamp =>
      simp only [Decoder.need, hs] at hneed
      simp only [Decoder.unread] at hne hneed
      have h4 : ¬ d.unread < 4 := by simp only [Decoder.unread]; omega
      apply consumeE
      simp only [decodeStep, hs]
      rw [if_neg h4]
      exact ⟨_, _, rfl, by simp [Decoder.unread]; omega⟩
    | DataLen =>
      simp only [Decoder.need, hs] at hneed
      simp only [Decoder.unread] at hne hneed
      have h4 : ¬ d.unread < 4 := by simp only [Decoder.unread]; omega
      apply consumeE
      simp only [decodeStep, hs]
      rw [if_neg h4]
      exact ⟨_, _, rfl, by simp [Decoder.unread]; omega⟩
    | Data len =>
      by_cases hlz : len = 0
      · subst hlz
        simp [Decoder.need, hs] at hneed
        simp only [Decoder.unread] at hne hneed
        have h0 : ¬ d.unread < 0 := by omega
        have hstep1 : decodeStep d = .next
            { d with offset := d.offset + 0,
                     data_frame := { d.data_frame with data := d.peekBytes 0 },
                     state := .PayloadEndChar .DataFrame 83 } .None := by
          simp only [decodeStep, hs]
          rw [if_neg h0]
        apply consume2E
        refine ⟨_, hstep1, by simp [Decoder.unread], ?_⟩
        refine stepPayloadEndChar _ .DataFrame 83 ?_ ?_
        · rfl
        · simp [Decoder.unread]
          omega
      · simp only [Decoder.need, hs, if_neg hlz] at hneed
        simp only [Decoder.unread] at hne hneed
        have hl : ¬ d.unread < len := by simp only [Decoder.unread]; omega
        apply consumeE
        simp only [decodeStep, hs]
        rw [if_neg hl]
        exact ⟨_, _, rfl, by simp [Decoder.unread]; omega⟩
  | ListFrames s =>
    cases s with
    | NumFrames =>
      simp only [Decoder.need, hs] at hneed
      simp only [Decoder.unread] at hne hneed
      have h4 : ¬ d.unread < 4 := by simp only [Decoder.unread]; omega
      apply consumeE
      simp only [decodeStep, hs]
      rw [if_neg h4]
      exact ⟨_, _, rfl, by simp [Decoder.unread]; omega⟩
    | FrameId =>
      simp only [Decoder.need, hs] at hneed
      simp only [Decoder.unread] at hne hneed
      have h4 : ¬ d.unread < 4 := by simp only [Decoder.unread]; omega
      apply consumeE
      simp only [decodeStep, hs]
      rw [if_neg h4]
      exact ⟨_, _, rfl, by simp [Decoder.unread]; omega⟩
    | FrameNameLen =>
      simp only [Decoder.unread] at hne
      have h1 : ¬ d.unread < 1 := by simp only [Decoder.unread]; omega
      apply consumeE
      simp only [decodeStep, hs]
      rw [if_neg h1]
      exact ⟨_, _, rfl, by simp [Decoder.unread]; omega⟩
    | FrameName len =>
      by_cases hlz : len = 0
      · subst hlz
        simp [Decoder.need, hs] at hneed
        simp only [Decoder.unread] at hne hneed
        have h0 : ¬ d.unread < 0 := by omega
        have hstep1 : decodeStep d = .next
            { d with offset := d.offset + 0,
                     list_frames := { d.list_frames with
                       frames := d.list_frames.frames ++
                         [⟨d.list_frames.frame_id, d.peekBytes 0⟩] },
                     state := if (d.list_frames.frames ++
                         [(⟨d.list_frames.frame_id, d.peekBytes 0⟩ : FrameInfo)]).length =
                           d.list_frames.num_frames
                       then .PayloadEndChar .ListFrames 76
                       else .ListFrames .FrameId } .None := by
          simp only [decodeStep, hs]
          rw [if_neg h0, if_pos (show validUtf8 (d.peekBytes 0) = true from rfl)]
        apply consume2E
        refine ⟨_, hstep1, by simp [Decoder.unread], ?_⟩
        simp only [show d.peekBytes 0 = [] from rfl]
        by_cases hc : (d.list_frames.frames ++
            [(⟨d.list_frames.frame_id, []⟩ : FrameInfo)]).length =
            d.list_frames.num_frames
        · have hc1 : d.list_frames.frames.length + 1 = d.list_frames.num_frames := by
            simpa using hc
          rw [if_pos hc]
          refine stepPayloadEndChar _ .ListFrames 76 ?_ ?_
          · rfl
          · simp only [if_pos hc1] at hneed
            simp [Decoder.unread]
            omega
        · have hc1 : ¬ d.list_frames.frames.length + 1 = d.list_frames.num_frames := by
            simpa using hc
          rw [if_neg hc]
          refine stepListFrameId _ ?_ ?_
          · rfl
          · simp only [if_neg hc1] at hneed
            simp [Decoder.unread]
            omega
      · simp only [Decoder.need, hs, if_neg hlz] at hneed
        simp only [Decoder.unread] at hne hneed
        have hl : ¬ d.unread < len := by simp only [Decoder.unread]; omega
        by_cases hv : validUtf8 (d.peekBytes len) = true
        · apply consumeE
          simp only [decodeStep, hs]
          rw [if_neg hl, if_pos hv]
          exact ⟨_, _, rfl, by simp [Decoder.unread]; omega⟩
        · refine Or.inl (hpanicC ?_)
          simp only [decodeStep, hs]
          rw [if_neg hl, if_neg hv]
  | GetFrameInfo s =>
    cases s with
    | IsEnabled =>
      simp only [Decoder.unread] at hne
      have h1 : ¬ d.unread < 1 := by simp only [Decoder.unread]; omega
      apply consumeE
      simp only [decodeStep, hs]
      rw [if_neg h1]
      split_ifs <;>
        exact ⟨_, _, rfl, by simp [Decoder.unread, Decoder.clear_read]; omega⟩
    | NumSignals =>
      simp only [Decoder.need, hs] at hneed
      simp only [Decoder.unread] at hne hneed
      have h4 : ¬ d.unread < 4 := by simp only [Decoder.unread]; omega
      apply consumeE
      simp only [decodeStep, hs]
      rw [if_neg h4]
      exact ⟨_, _, rfl, by simp [Decoder.unread]; omega⟩
    | SignalNameLen =>
      simp only [Decoder.unread] at hne
      have h1 : ¬ d.unread < 1 := by simp only [Decoder.unread]; omega
      apply consumeE
      simp only [decodeStep, hs]
      rw [if_neg h1]
      exact ⟨_, _, rfl, by simp [Decoder.unread]; omega⟩
    | SignalName len =>
      by_cases hlz : len = 0
      · subst hlz
        simp [Decoder.need, hs] at hneed
        simp only [Decoder.unread] at hne hneed
        have h0 : ¬ d.unread < 0 := by omega
        have hstep1 : decodeStep d = .next
            { d with offset := d.offset + 0,
                     get_frame_info := { d.get_frame_info with
                       signal_name := d.peekBytes 0 },
                     state := .GetFrameInfo .SignalTypeLen } .None := by
          simp only [decodeStep, hs]
          rw [if_neg h0, if_pos (show validUtf8 (d.peekBytes 0) = true from rfl)]
        apply consume2E
        refine ⟨_, hstep1, by simp [Decoder.unread], ?_⟩
        refine stepSignalTypeLen _ ?_ ?_
        · rfl
        · simp [Decoder.unread]
          omega
      · simp only [Decoder.need, hs, if_neg hlz] at hneed
        simp only [Decoder.unread] at hne hneed
        have hl : ¬ d.unread < len := by simp only [Decoder.unread]; omega
        by_cases hv : validUtf8 (d.peekBytes len) = true
        · apply consumeE
          simp only [decodeStep, hs]
          rw [if_neg hl, if_pos hv]
          exact ⟨_, _, rfl, by simp [Decoder.unread]; omega⟩
        · refine Or.inl (hpanicC ?_)
          simp only [decodeStep, hs]
          rw [if_neg hl, if_neg hv]
    | SignalTypeLen =>
      simp only [Decoder.unread] at hne
      have h1 : ¬ d.unread < 1 := by simp only [Decoder.unread]; omega
      apply consumeE
      simp only [decodeStep, hs]
      rw [if_neg h1]
      exact ⟨_, _, rfl, by simp [Decoder.unread]; omega⟩
    | SignalType len =>
      have hlz : len ≠ 0 := by
        intro h
        exact hst (by rw [hs, h])
      simp only [Decoder.need, hs] at hneed
      simp only [Decoder.unread] at hne hneed
      have hl : ¬ d.unread < len := by simp only [Decoder.unread]; omega
      by_cases hv : validUtf8 (d.peekBytes len) = true
      · cases hpt : parse_type_name (d.peekBytes len) with
        | none =>
          have hstep : decodeStep d = .stall { d with offset := d.offset + len } := by
            simp only [decodeStep, hs]
            rw [if_neg hl, if_pos hv, hpt]
          refine Or.inr ⟨_, _, hstallC _ hstep, Or.inl ?_⟩
          simp only [Decoder.unread]
          omega
        | some ty =>
          apply consumeE
          simp only [decodeStep, hs]
          rw [if_neg hl, if_pos hv, hpt]
          exact ⟨_, _, rfl, by simp [Decoder.unread]; omega⟩
      · refine Or.inl (hpanicC ?_)
        simp only [decodeStep, hs]
        rw [if_neg hl, if_neg hv]
  | PayloadEndChar pt ec =>
    apply consumeE
    exact stepPayloadEndChar d pt ec hs (by omega)
  | Crc pt =>
    simp only [Decoder.need, hs] at hneed
    simp only [Decoder.unread] at hne hneed
    have h2 : ¬ d.unread < 2 := by simp only [Decoder.unread]; omega
    by_cases ho : d.offset < 5
    · refine Or.inl (hpanicC ?_)
      simp only [decodeStep, hs]
      rw [if_neg h2, if_pos ho]
    · apply consumeE
      simp only [decodeStep, hs]
      rw [if_neg h2, if_neg ho]
      split_ifs <;>
        exact ⟨_, _, rfl, by simp [Decoder.unread, Decoder.clear_read]; omega⟩
  | EndChar pt =>
    simp only [Decoder.unread] at hne
    have h1 : ¬ d.unread < 1 := by simp only [Decoder.unread]; omega
    apply consumeE
    simp only [decodeStep, hs]
    rw [if_neg h1]
    split_ifs <;>
      exact ⟨_, _, rfl, by simp [Decoder.unread, Decoder.clear_read]; omega⟩

/-- Witness for C4's amended theorem: a fresh decoder holding one
garbage byte plus three more (enough for the magic peek) consumes at
least a byte. -/
theorem decode_progress_with_sufficient_bytes_witness :
    (Decoder.new.add_data [1, 2, 3, 4]).decode = none ∨
    ∃ d' r, (Decoder.new.add_data [1, 2, 3, 4]).decode = some (d', r) ∧
      (d'.unread < (Decoder.new.add_data [1, 2, 3, 4]).unread ∨ r ≠ .None) :=
  decode_progress_with_sufficient_bytes (Decoder.new.add_data [1, 2, 3, 4])
    (by decide) (by decide) (by decide)

/-! ## Claim C8 — fixed-point projection monotonicity -/

/-- Counterexample to C8: at `ufix(8, -31)` the divisor expression
`2i32 << 30` wraps to `-2^31` (high bits of a shift are discarded in
every Rust build), so the projection is NEGATIVE at `raw = 1` while it
is `0` at `raw = 0` — both values exact in f64, no rounding involved —
falsifying `to_f64(raw) < to_f64(raw + 1)` inside the claim's range
`1 ≤ w ≤ 64`, `e ≤ 0`, `raw < 2^w - 1`. -/
theorem ufix_projection_not_monotone :
    (0 : Nat) < 2 ^ 8 - 1 ∧ (-31 : Int) ≤ 0 ∧ (1 ≤ 8 ∧ 8 ≤ 64) ∧
    i32Shl2 30 = -(2 ^ 31) ∧
    into_f64 (Value.UFix 8 (-31) 0) = some 0 ∧
    into_f64 (Value.UFix 8 (-31) 1) = some (-(1 / 2 ^ 31)) ∧
    ¬ ((0 : ℚ) < -(1 / 2 ^ 31)) := by
  have hD : i32Shl2 30 = -(2 ^ 31) := by decide
  refine ⟨by decide, by decide, ⟨by decide, by decide⟩, hD, ?_, ?_, by norm_num⟩
  · simp only [into_f64]
    norm_num [hD, show ((30 : Int).toNat = 30) from rfl]
  · simp only [into_f64]
    norm_num [hD, show ((30 : Int).toNat = 30) from rfl]

/-- For shift amounts whose result still fits a non-negative `i32`,
`i32Shl2` is the plain power of two. -/
theorem i32Shl2_eq_pow (k : Nat) (hk : k ≤ 29) : i32Shl2 k = (2 : Int) ^ (k + 1) := by
  have hmod : k % 32 = k := Nat.mod_eq_of_lt (by omega)
  have hshl : (2 : Nat) <<< (k % 32) = 2 ^ (k + 1) := by
    rw [hmod, Nat.shiftLeft_eq, pow_succ, Nat.mul_comm]
  have hlt32 : (2 : Nat) ^ (k + 1) < 2 ^ 32 := by
    calc (2 : Nat) ^ (k + 1) ≤ 2 ^ 30 := Nat.pow_le_pow_right (by omega) (by omega)
    _ < 2 ^ 32 := by norm_num
  have hlt31 : (2 : Nat) ^ (k + 1) < 2 ^ 31 := by
    calc (2 : Nat) ^ (k + 1) ≤ 2 ^ 30 := Nat.pow_le_pow_right (by omega) (by omega)
    _ < 2 ^ 31 := by norm_num
  simp only [i32Shl2, hshl, Nat.mod_eq_of_lt hlt32, if_pos hlt31]
  push_cast
  rfl

/-- C8 amended: the projection of `ufix(w, e)` is strictly increasing
in `raw` on the range where the code's arithmetic is exact: width at
most 53 bits (so `raw` and `raw + 1` convert to f64 without rounding)
and `-30 ≤ e ≤ 0` (so the divisor `2i32 << (-e-1)` stays a positive
power of two; at `e ≤ -31` it wraps negative — see the counterexample —
and beyond the 53-bit mantissa neighbouring raws collapse under f64
rounding). -/
theorem ufix_projection_monotone_small (w : Nat) (e : Int) (raw : Nat)
    (_hw1 : 1 ≤ w) (_hw : w ≤ 53) (he0 : e ≤ 0) (he : -30 ≤ e)
    (_hraw : raw < 2 ^ w - 1) :
    ∃ q q' : ℚ, into_f64 (Value.UFix w e raw) = some q ∧
      into_f64 (Value.UFix w e (raw + 1)) = some q' ∧ q < q' := by
  have hcast : ((raw : ℚ)) < (((raw + 1 : Nat)) : ℚ) := by
    exact_mod_cast Nat.lt_succ_self raw
  by_cases hneg : e < 0
  · have hk : (-e - 1).toNat ≤ 29 := by omega
    refine ⟨(raw : ℚ) / ((i32Shl2 (-e - 1).toNat : Int) : ℚ),
      (((raw + 1 : Nat)) : ℚ) / ((i32Shl2 (-e - 1).toNat : Int) : ℚ),
      by simp [into_f64, hneg], by simp [into_f64, hneg], ?_⟩
    rw [i32Shl2_eq_pow _ hk]
    have hpos : (0 : ℚ) < (((2 : Int) ^ ((-e - 1).toNat + 1) : Int) : ℚ) := by
      push_cast
      positivity
    exact (div_lt_div_iff_of_pos_right hpos).mpr hcast
  · have he0' : e = 0 := by omega
    subst he0'
    refine ⟨(raw : ℚ), (((raw + 1 : Nat)) : ℚ), ?_, ?_, hcast⟩
    · simp [into_f64]
    · simp [into_f64]

/-- Witness for C8's amended theorem at `ufix(8, -3)`, `raw = 5`. -/
theorem ufix_projection_monotone_small_witness :
    ∃ q q' : ℚ, into_f64 (Value.UFix 8 (-3) 5) = some q ∧
      into_f64 (Value.UFix 8 (-3) 6) = some q' ∧ q < q' :=
  ufix_projection_monotone_small 8 (-3) 5 (by decide) (by decide) (by decide)
    (by decide) (by decide)

end SBS
